import Mathlib

/-!
# postal_api: address reduction, distance and lookup orchestration

A shallow embedding of `main.go`.

* A Go `string` is a byte sequence.  The strings of a location record are produced by
  `json.Unmarshal`, which only ever stores valid UTF-8, so such a string is represented by the
  sequence of its code points (a Lean `String`); its bytes are recovered by `strings.bytes`.
  `len` and `strings.HasPrefix` are defined on those bytes, as in Go, and `strings.Split(s, "")`
  on the code points, as in Go.
* A `float64` is a value of `F64`: a NaN, an infinity or a finite binary number; the operations
  round as IEEE-754 prescribes, each operation on its own.  `math.Cos` and
  `strconv.ParseFloat` are parameters of the embedding.
* `addressHandler` is a function of the request, of the answer of the geocoding API and of the
  state of the database; it returns the reply, the new state of the database and the calls it
  made.
-/

set_option autoImplicit false

namespace PostalApi

/-! ## Go strings -/

namespace strings

/-- UTF-8 encoding of one code point, the bytes a Go string stores for it. -/
def encodeRune (c : Nat) : List Nat :=
  if c < 0x80 then [c]
  else if c < 0x800 then [0xC0 + c / 0x40, 0x80 + c % 0x40]
  else if c < 0x10000 then [0xE0 + c / 0x1000, 0x80 + c / 0x40 % 0x40, 0x80 + c % 0x40]
  else [0xF0 + c / 0x40000, 0x80 + c / 0x1000 % 0x40, 0x80 + c / 0x40 % 0x40, 0x80 + c % 0x40]

/-- The bytes of a Go string that holds valid UTF-8. -/
def bytes (s : String) : List Nat :=
  s.data.flatMap fun c => encodeRune c.toNat

/-- Go's builtin `len(s)` on a string: its number of bytes. -/
def len (s : String) : Nat :=
  (bytes s).length

/-- `strings.HasPrefix(s, prefix)`, which is
`len(s) >= len(prefix) && s[:len(prefix)] == prefix` on bytes. -/
def HasPrefix (s pre : String) : Bool :=
  decide (len s ≥ len pre) && decide ((bytes s).take (len pre) = bytes pre)

/-- `strings.Split(s, "")`: with the empty separator the string is exploded into one
string per UTF-8 sequence. -/
def Split (s : String) : List String :=
  s.data.map String.singleton

/-- `strings.Join(parts, "")`: the concatenation of the parts. -/
def Join (parts : List String) : String :=
  parts.foldl (fun acc p => acc ++ p) ""

end strings

/-! ## Location records and `getCommonAddress` -/

/-- One element of `ExternalAPIResponse.Response.Location`. -/
structure Location where
  City : String
  CityKana : String
  Town : String
  TownKana : String
  X : String
  Y : String
  Prefecture : String
  Postal : String
deriving DecidableEq, Repr

/-- The inner loop of `getCommonAddress`, `for i, char := range townParts`: while
`i < len(commonTownParts) && commonTownParts[i] == char` the character is appended to
`commonParts`; the first other character breaks the loop. -/
def commonPartsLoop (commonTownParts : List String) :
    Nat → List String → List String → List String
  | _, [], commonParts => commonParts
  | i, char :: rest, commonParts =>
    if i < commonTownParts.length ∧ commonTownParts[i]? = some char then
      commonPartsLoop commonTownParts (i + 1) rest (commonParts ++ [char])
    else
      commonParts

/-- The body of the outer loop of `getCommonAddress` after the prefecture and city check:
the value of `commonTown` after the record with town `town` has been processed. -/
def updateCommonTown (commonTown town : String) : String :=
  if (!strings.HasPrefix town commonTown && !strings.HasPrefix commonTown town) = true then
    let townParts := strings.Split town
    let commonTownParts := strings.Split commonTown
    let commonParts := commonPartsLoop commonTownParts 0 townParts []
    strings.Join commonParts
  else if strings.len town < strings.len commonTown then
    town
  else
    commonTown

/-- The outer loop of `getCommonAddress`, `for _, loc := range locations`, together with the
final `return`: the remaining records and the current `commonTown` give the returned string. -/
def getCommonAddressLoop (prefecture city : String) : List Location → String → String
  | [], commonTown => prefecture ++ city ++ commonTown
  | loc :: rest, commonTown =>
    if loc.Prefecture ≠ prefecture ∨ loc.City ≠ city then
      ""
    else
      getCommonAddressLoop prefecture city rest (updateCommonTown commonTown loc.Town)

/-- `getCommonAddress(locations)`. -/
def getCommonAddress (locations : List Location) : String :=
  match locations with
  | [] => ""
  | first :: _ =>
    getCommonAddressLoop first.Prefecture first.City locations first.Town

/-! ## Example data -/

/-- A record with the given prefecture, city and town and no other data. -/
def mkLocation (prefecture city town : String) : Location :=
  { City := city, CityKana := "", Town := town, TownKana := "", X := "", Y := "",
    Prefecture := prefecture, Postal := "" }

/-- The three Marunouchi records of the end-to-end example. -/
def marunouchi : List Location :=
  [mkLocation "Tokyo" "Chiyoda" "Marunouchi1", mkLocation "Tokyo" "Chiyoda" "Marunouchi2",
   mkLocation "Tokyo" "Chiyoda" "Marunouchi3"]

/-! ## Longest common prefix (specification side) -/

/-- The longest common prefix of two character sequences. -/
def lcp : List Char → List Char → List Char
  | a :: as, b :: bs => if a = b then a :: lcp as bs else []
  | _, _ => []

/-- The longest common prefix of a character sequence and the towns of a list of records. -/
def lcpTowns (t : List Char) (locations : List Location) : List Char :=
  locations.foldl (fun acc loc => lcp acc loc.Town.data) t

/-! ## IEEE-754 binary64 arithmetic

Go's `float64`.  `+`, `-`, `*`, `/` and `math.Sqrt` are the correctly rounded operations of
IEEE-754 (round to nearest, ties to even); `math.Round` is exact. -/

/-- A `float64` value: a NaN, an infinity, or the finite number `(-1)^neg * m * 2^e`. -/
inductive F64
  | nan
  | inf (neg : Bool)
  | fin (neg : Bool) (m : Nat) (e : Int)
deriving DecidableEq, Repr

namespace F64

/-- The number of binary digits of `n`, with `fuel` steps allowed. -/
def bitLenAux : Nat → Nat → Nat
  | 0, _ => 0
  | fuel + 1, n => if n = 0 then 0 else bitLenAux fuel (n / 2) + 1

/-- The number of binary digits of `n`. -/
def bitLen (n : Nat) : Nat :=
  bitLenAux n n

/-- Whether `num / den < 2 ^ l`. -/
def ratLtPow2 (num den : Nat) (l : Int) : Bool :=
  decide (num * 2 ^ (-l).toNat < den * 2 ^ l.toNat)

/-- The exponent of the last binary place that rounding `num / den` keeps: 52 places below
the leading digit, and no lower than the subnormal step `2 ^ (-1074)`. -/
def lastPlace (num den : Nat) : Int :=
  let l : Int := (bitLen num : Int) - (bitLen den : Int)
  -- the exponent of the leading binary digit of `num / den`
  let ex : Int := if ratLtPow2 num den l then l - 1 else l
  max (ex - 52) (-1074)

/-- The integer nearest to `n / d`, the even one of two nearest. -/
def roundQuotient (n d : Nat) : Nat :=
  let q := n / d
  let r := n % d
  if 2 * r > d ∨ (2 * r = d ∧ q % 2 = 1) then q + 1 else q

/-- The `float64` of sign `neg` and magnitude `m * 2 ^ E`, for a rounded `m`: an infinity
when the magnitude reaches `2 ^ 1024`; a carry to `2 ^ 53` moves to the next binade. -/
def pack (neg : Bool) (m : Nat) (E : Int) : F64 :=
  if m = 0 then fin neg 0 0
  else if m * 2 ^ (E + 1074).toNat ≥ 2 ^ 2098 then inf neg
  else if m = 2 ^ 53 then fin neg (2 ^ 52) (E + 1)
  else fin neg m E

/-- Rounding to binary64, to nearest with ties to even: the `float64` of sign `neg` whose
magnitude is nearest to `num / den`. -/
def roundRat (neg : Bool) (num den : Nat) : F64 :=
  let E := lastPlace num den
  pack neg (roundQuotient (num * 2 ^ (-E).toNat) (den * 2 ^ E.toNat)) E

/-- Rounding of `m * 2 ^ e` to binary64. -/
def roundDyadic (neg : Bool) (m : Nat) (e : Int) : F64 :=
  roundRat neg (m * 2 ^ e.toNat) (2 ^ (-e).toNat)

/-- The `float64` a decimal constant `num / den` of the program text is converted to. -/
def ofRat (num den : Nat) : F64 :=
  roundRat false num den

instance (n : Nat) : OfNat F64 n := ⟨ofRat n 1⟩

/-- The integer `(-1)^neg * m * 2^k`. -/
def signed (neg : Bool) (m k : Nat) : Int :=
  if neg then -((m * 2 ^ k : Nat) : Int) else ((m * 2 ^ k : Nat) : Int)

/-- Unary minus. -/
def neg : F64 → F64
  | nan => nan
  | inf s => inf (!s)
  | fin s m e => fin (!s) m e

/-- The sum `x + y`. -/
def add : F64 → F64 → F64
  | nan, _ => nan
  | _, nan => nan
  | inf a, inf b => if a = b then inf a else nan
  | inf a, fin _ _ _ => inf a
  | fin _ _ _, inf b => inf b
  | fin s₁ m₁ e₁, fin s₂ m₂ e₂ =>
    let e₀ := min e₁ e₂
    let s : Int := signed s₁ m₁ (e₁ - e₀).toNat + signed s₂ m₂ (e₂ - e₀).toNat
    -- an exact zero sum is +0, except that (-0) + (-0) is -0
    if s = 0 then fin (s₁ && s₂) 0 0
    else roundDyadic (decide (s < 0)) s.natAbs e₀

/-- The difference `x - y`. -/
def sub (x y : F64) : F64 :=
  add x (neg y)

/-- The product `x * y`. -/
def mul : F64 → F64 → F64
  | nan, _ => nan
  | _, nan => nan
  | inf a, inf b => inf (xor a b)
  | inf a, fin s m _ => if m = 0 then nan else inf (xor a s)
  | fin s m _, inf b => if m = 0 then nan else inf (xor s b)
  | fin s₁ m₁ e₁, fin s₂ m₂ e₂ => roundDyadic (xor s₁ s₂) (m₁ * m₂) (e₁ + e₂)

/-- The quotient `x / y`. -/
def div : F64 → F64 → F64
  | nan, _ => nan
  | _, nan => nan
  | inf _, inf _ => nan
  | inf a, fin s _ _ => inf (xor a s)
  | fin s _ _, inf b => fin (xor s b) 0 0
  | fin s₁ m₁ e₁, fin s₂ m₂ e₂ =>
    if m₂ = 0 then
      if m₁ = 0 then nan else inf (xor s₁ s₂)
    else
      let e₀ := min e₁ e₂
      roundRat (xor s₁ s₂) (m₁ * 2 ^ (e₁ - e₀).toNat) (m₂ * 2 ^ (e₂ - e₀).toNat)

instance : Add F64 := ⟨add⟩
instance : Sub F64 := ⟨sub⟩
instance : Mul F64 := ⟨mul⟩
instance : Div F64 := ⟨div⟩

/-- The comparison `x < y`; false when an operand is a NaN, and `-0 < +0` is false. -/
def lt : F64 → F64 → Bool
  | nan, _ => false
  | _, nan => false
  | inf a, inf b => a && !b
  | inf a, fin _ _ _ => a
  | fin _ _ _, inf b => !b
  | fin s₁ m₁ e₁, fin s₂ m₂ e₂ =>
    let e₀ := min e₁ e₂
    decide (signed s₁ m₁ (e₁ - e₀).toNat < signed s₂ m₂ (e₂ - e₀).toNat)

/-- The comparison `x <= y`; false when an operand is a NaN. -/
def le : F64 → F64 → Bool
  | nan, _ => false
  | _, nan => false
  | inf a, inf b => a || !b
  | inf a, fin _ _ _ => a
  | fin _ _ _, inf b => !b
  | fin s₁ m₁ e₁, fin s₂ m₂ e₂ =>
    let e₀ := min e₁ e₂
    decide (signed s₁ m₁ (e₁ - e₀).toNat ≤ signed s₂ m₂ (e₂ - e₀).toNat)

/-- The comparison `x > y`. -/
def gt (x y : F64) : Bool :=
  lt y x

/-- The comparison `x >= y`. -/
def ge (x y : F64) : Bool :=
  le y x

/-- The integer square root by bisection on the binary digits: with `s * s ≤ n`, the digits
below `2 ^ i` are added while the square stays at most `n`. -/
def isqrtAux (n : Nat) : Nat → Nat → Nat
  | 0, s => s
  | i + 1, s => if (s + 2 ^ i) * (s + 2 ^ i) ≤ n then isqrtAux n i (s + 2 ^ i) else isqrtAux n i s

/-- The integer square root `⌊√n⌋`. -/
def isqrt (n : Nat) : Nat :=
  isqrtAux n (bitLen n / 2 + 1) 0

end F64

namespace math

/-- `math.Pi`, converted to `float64` where it meets a `float64` operand. -/
def Pi : F64 :=
  F64.ofRat 314159265358979323846264338327950288419716939937510582097494459 (10 ^ 62)

/-- `math.Sqrt`: the correctly rounded square root; `Sqrt(-0) = -0`, `Sqrt(x < 0) = NaN`. -/
def Sqrt : F64 → F64
  | .nan => .nan
  | .inf s => if s then .nan else .inf false
  | .fin s m e =>
    if m = 0 then .fin s 0 0
    else if s then .nan
    else
      -- `m * 2 ^ e = n * 2 ^ (2 * h)` with `n = m * 2 ^ t` at least `2 ^ 120`
      let t : Nat := if e % 2 = 0 then 120 else 121
      let n := m * 2 ^ t
      let h : Int := (e - t) / 2
      let r := F64.isqrt n
      -- when `n` is no square, `√n` rounds as `r + 1/2` does: both lie strictly between the
      -- integers `r` and `r + 1`, and `r` has more than 54 binary digits
      if r * r = n then F64.roundDyadic false r h
      else F64.roundDyadic false (2 * r + 1) (h - 1)

/-- `math.Round`: the nearest integer, halves rounded away from zero; the sign is kept. -/
def Round : F64 → F64
  | .nan => .nan
  | .inf s => .inf s
  | .fin s m e =>
    let num := m * 2 ^ e.toNat
    let den := 2 ^ (-e).toNat
    F64.roundRat s ((2 * num + den) / (2 * den)) 1

end math

/-! ## `calculateDistance` -/

/-- `TokyoStationX = 139.7673068`. -/
def TokyoStationX : F64 := F64.ofRat 1397673068 10000000

/-- `TokyoStationY = 35.6809591`. -/
def TokyoStationY : F64 := F64.ofRat 356809591 10000000

/-- `EarthRadius = 6371.0`. -/
def EarthRadius : F64 := F64.ofRat 6371 1

/-- `calculateDistance(x, y)`.  `Cos` is `math.Cos`. -/
def calculateDistance (Cos : F64 → F64) (x y : F64) : F64 :=
  let xt := TokyoStationX
  let yt := TokyoStationY
  let R := EarthRadius
  let dX := (x - xt) * Cos (math.Pi * (y + yt) / 360)
  let dY := y - yt
  let distance := (math.Pi * R / 180) * math.Sqrt (dX * dX + dY * dY)
  math.Round (distance * 10) / 10

/-! ## `strconv.ParseFloat` and `math.Cos`

Both belong to the Go library, not to this program; the program is embedded over any
`ParseFloat` and `Cos` with the results the library documents. -/

namespace strconv

/-- The error of a failed conversion: `ErrSyntax` or `ErrRange`. -/
inductive NumError
  | ErrSyntax
  | ErrRange
deriving DecidableEq, Repr

/-- The type of `strconv.ParseFloat(s, 64)`: the value and the error, `none` for `nil`. -/
abbrev ParseFloatFn := String → F64 × Option NumError

/-- The documented results of `ParseFloat`: with a syntax error the value is `0`, with a
range error it is an infinity. -/
def ParseFloatSpec (ParseFloat : ParseFloatFn) : Prop :=
  ∀ s, ((ParseFloat s).2 = some NumError.ErrSyntax → (ParseFloat s).1 = 0) ∧
    ((ParseFloat s).2 = some NumError.ErrRange → ∃ neg, (ParseFloat s).1 = F64.inf neg)

/-- The digits of a text as a number, `none` when a character is no decimal digit. -/
def digitsValue : List Char → Option Nat
  | [] => some 0
  | c :: cs =>
    if 0x30 ≤ c.toNat ∧ c.toNat ≤ 0x39 then
      (digitsValue cs).map fun v => (c.toNat - 0x30) * 10 ^ cs.length + v
    else none

/-- The value and error for the magnitude text `ip.fp` with sign `neg`. -/
def decimalResult (neg : Bool) (ip fp : List Char) : F64 × Option NumError :=
  match digitsValue ip, digitsValue fp with
  | some i, some f =>
    if ip.length + fp.length = 0 then (0, some NumError.ErrSyntax)
    else
      match F64.roundRat neg (i * 10 ^ fp.length + f) (10 ^ fp.length) with
      | F64.inf s => (F64.inf s, some NumError.ErrRange)
      | v => (v, none)
  | _, _ => (0, some NumError.ErrSyntax)

/-- The magnitude text split at its first `.`; a text without `.` has no fraction digits, and
a text that is only `.` or has a second `.` is no number. -/
def decimalMagnitude (neg : Bool) (cs : List Char) : F64 × Option NumError :=
  match cs.span (fun c => c != '.') with
  | (ip, []) => decimalResult neg ip []
  | (ip, _ :: fp) => decimalResult neg ip fp

/-- A `ParseFloat` for examples.  It gives a plain decimal text `[+-]digits[.digits]` the
nearest `float64`, as `strconv.ParseFloat` does, and a syntax error to every other text. -/
def decimalParseFloat : ParseFloatFn := fun s =>
  match s.data with
  | '-' :: cs => decimalMagnitude true cs
  | '+' :: cs => decimalMagnitude false cs
  | cs => decimalMagnitude false cs

end strconv

namespace math

/-- The documented range of `math.Cos`: a finite argument has a finite cosine. -/
def CosSpec (Cos : F64 → F64) : Prop :=
  ∀ s m e, ∃ s' m' e', Cos (F64.fin s m e) = F64.fin s' m' e'

end math

/-! ## `regexp.MatchString` -/

namespace regexp

/-- The syntax tree of a pattern, with the operators the program's pattern uses. -/
inductive Regexp
  /-- `^` without the flag `m`: the beginning of the text. -/
  | BeginText
  /-- `$` without the flag `m`: the end of the text. -/
  | EndText
  /-- `[lo-hi]`: one character with a code point from `lo` to `hi`. -/
  | CharClass (lo hi : Nat)
  /-- `r{n}`: `n` matches of `r` in a row. -/
  | Repeat (r : Regexp) (n : Nat)
  /-- `rs`: a match of `r` followed by a match of `s`. -/
  | Concat (r s : Regexp)
deriving Repr

/-- The positions reached from the positions `ps` by `n` steps in a row. -/
def iterate (step : Nat → List Nat) : Nat → List Nat → List Nat
  | 0, ps => ps
  | n + 1, ps => iterate step n (ps.flatMap step)

/-- The positions of `text` at which a match of the pattern that begins at `pos` may end. -/
def ends : Regexp → List Char → Nat → List Nat
  | .BeginText, _, pos => if pos = 0 then [pos] else []
  | .EndText, text, pos => if pos = text.length then [pos] else []
  | .CharClass lo hi, text, pos =>
    match text[pos]? with
    | some c => if lo ≤ c.toNat ∧ c.toNat ≤ hi then [pos + 1] else []
    | none => []
  | .Repeat r n, text, pos => iterate (ends r text) n [pos]
  | .Concat r s, text, pos => (ends r text pos).flatMap (ends s text)

/-- `regexp.MatchString(pattern, s)` for a pattern that compiles: whether `s` contains a match
of the pattern, beginning at any position. -/
def MatchString (pattern : Regexp) (s : String) : Bool :=
  (List.range (s.data.length + 1)).any fun start => !(ends pattern s.data start).isEmpty

end regexp

/-- The pattern `"^[0-9]{7}$"` of `addressHandler`. -/
def postalCodePattern : regexp.Regexp :=
  .Concat .BeginText (.Concat (.Repeat (.CharClass 0x30 0x39) 7) .EndText)

/-! ## `addressHandler` -/

/-- What `http.Get` on the geocoding API, `ioutil.ReadAll` and `json.Unmarshal` give. -/
inductive ProviderResult
  /-- `http.Get` returns an error. -/
  | getError
  /-- `ioutil.ReadAll` returns an error. -/
  | readError
  /-- `json.Unmarshal` returns an error. -/
  | unmarshalError
  /-- The body is decoded; `locations` is `externalResponse.Response.Location`. -/
  | ok (locations : List Location)

/-- The request, as far as the handler reads it: `r.Method` and
`r.URL.Query().Get("postal_code")`. -/
structure Request where
  Method : String
  postal_code : String

/-- `AddressResponse`. -/
structure AddressResponse where
  PostalCode : String
  HitCount : Nat
  Address : String
  TokyoStaDistance : F64
deriving DecidableEq, Repr

/-- What the handler sends: `http.Error(w, message, code)`, or the response it hands to
`json.NewEncoder(w).Encode` under status 200. -/
inductive Reply
  | error (message : String) (code : Nat)
  | json (response : AddressResponse)
deriving DecidableEq, Repr

/-- The HTTP status of a reply. -/
def Reply.status : Reply → Nat
  | .error _ code => code
  | .json _ => 200

/-- The calls of the handler to its collaborators. -/
inductive Call
  | httpGet (url : String)
  | saveAccessLog (postalCode : String)
  | logPrintf (message : String)
deriving DecidableEq, Repr

/-- The database behind `db`: the rows of `access_logs` (their `postal_code`), and the error
`db.Exec` returns, if it fails. -/
structure DB where
  access_logs : List String
  execError : Option String
deriving DecidableEq, Repr

/-- `saveAccessLog(postalCode)`: the `INSERT` adds a row unless `db.Exec` fails; the error of
`db.Exec` is returned. -/
def saveAccessLog (db : DB) (postalCode : String) : DB × Option String :=
  match db.execError with
  | some err => (db, some err)
  | none => ({ db with access_logs := db.access_logs ++ [postalCode] }, none)

/-- The distance `addressHandler` computes for one record: both texts go through
`ParseFloat`, whose error is dropped, and the values through `calculateDistance`. -/
def recordDistance (Cos : F64 → F64) (ParseFloat : strconv.ParseFloatFn) (loc : Location) :
    F64 :=
  let x := (ParseFloat loc.X).1
  let y := (ParseFloat loc.Y).1
  calculateDistance Cos x y

/-- The loop of `addressHandler` over the records, from the current `maxDistance`. -/
def maxDistanceLoop (Cos : F64 → F64) (ParseFloat : strconv.ParseFloatFn) :
    List Location → F64 → F64
  | [], maxDistance => maxDistance
  | loc :: rest, maxDistance =>
    let distance := recordDistance Cos ParseFloat loc
    if F64.gt distance maxDistance = true then
      maxDistanceLoop Cos ParseFloat rest distance
    else
      maxDistanceLoop Cos ParseFloat rest maxDistance

/-- What one run of `addressHandler` leaves: the reply, the database and the calls made. -/
structure Outcome where
  reply : Reply
  db : DB
  calls : List Call

/-- `addressHandler(w, r)`.  `httpGet` is the geocoding API as seen through `http.Get`,
`ioutil.ReadAll` and `json.Unmarshal`. -/
def addressHandler (Cos : F64 → F64) (ParseFloat : strconv.ParseFloatFn)
    (httpGet : String → ProviderResult) (db : DB) (r : Request) : Outcome :=
  if r.Method ≠ "GET" then
    ⟨.error "Method not allowed" 405, db, []⟩
  else
    let postalCode := r.postal_code
    let matched := regexp.MatchString postalCodePattern postalCode
    if !matched then
      ⟨.error "Invalid postal code format. Must be 7 digits." 400, db, []⟩
    else
      let externalAPIURL :=
        "https://geoapi.heartrails.com/api/json?method=searchByPostal&postal=" ++ postalCode
      match httpGet externalAPIURL with
      | .getError =>
        ⟨.error "Failed to fetch data from external API" 500, db, [.httpGet externalAPIURL]⟩
      | .readError =>
        ⟨.error "Failed to read response body" 500, db, [.httpGet externalAPIURL]⟩
      | .unmarshalError =>
        ⟨.error "Failed to parse external API response" 500, db, [.httpGet externalAPIURL]⟩
      | .ok locations =>
        if locations.length = 0 then
          ⟨.error "No location found for the given postal code" 404, db,
            [.httpGet externalAPIURL]⟩
        else
          let commonAddress := getCommonAddress locations
          let maxDistance := maxDistanceLoop Cos ParseFloat locations 0
          let saved := saveAccessLog db postalCode
          let logged : List Call :=
            match saved.2 with
            | some err => [.logPrintf ("Failed to save access log: " ++ err)]
            | none => []
          ⟨.json
              { PostalCode := postalCode, HitCount := locations.length,
                Address := commonAddress, TokyoStaDistance := maxDistance },
            saved.1, [.httpGet externalAPIURL, .saveAccessLog postalCode] ++ logged⟩

/-- The number of `saveAccessLog` calls among the calls of a run. -/
def saveAccessLogCalls (calls : List Call) : Nat :=
  (calls.filter fun c => match c with
    | .saveAccessLog _ => true
    | _ => false).length

/-- The number of `http.Get` calls among the calls of a run. -/
def httpGetCalls (calls : List Call) : Nat :=
  (calls.filter fun c => match c with
    | .httpGet _ => true
    | _ => false).length

/-! ## Example collaborators -/

/-- A `Cos` with finite values: the constant `1`. -/
def constantCos : F64 → F64 :=
  fun _ => 1

/-- A geocoding API that answers every request with the three Marunouchi records. -/
def marunouchiGet : String → ProviderResult :=
  fun _ => .ok marunouchi

/-- A geocoding API that knows no location. -/
def emptyGet : String → ProviderResult :=
  fun _ => .ok []

/-- A database with one earlier row, whose `Exec` succeeds. -/
def workingDB : DB :=
  { access_logs := ["2000002"], execError := none }

/-- A database with one earlier row, whose `Exec` fails. -/
def failingDB : DB :=
  { access_logs := ["2000002"], execError := some "connection refused" }

/-- Two records of the same town with coordinates near Tokyo Station. -/
def yaesu : List Location :=
  [{ City := "Chuo", CityKana := "", Town := "Yaesu", TownKana := "", X := "139.7673068",
     Y := "35.6809591", Prefecture := "Tokyo", Postal := "1030028" },
   { City := "Chuo", CityKana := "", Town := "Yaesu", TownKana := "", X := "139.7717",
     Y := "35.6795", Prefecture := "Tokyo", Postal := "1030028" }]

/-- A geocoding API that answers every request with the two Yaesu records. -/
def yaesuGet : String → ProviderResult :=
  fun _ => .ok yaesu

/-- A record with the longitude of Tokyo Station and a latitude text that is no number. -/
def recordWithoutLatitude : Location :=
  { City := "Chiyoda", CityKana := "", Town := "Marunouchi", TownKana := "",
    X := "139.7673068", Y := "abc", Prefecture := "Tokyo", Postal := "1000005" }

/-- A geocoding API that answers every request with `recordWithoutLatitude`. -/
def withoutLatitudeGet : String → ProviderResult :=
  fun _ => .ok [recordWithoutLatitude]

/-- A geocoding API that cannot be reached. -/
def unreachableGet : String → ProviderResult :=
  fun _ => .getError

/-- Two records whose towns end in different characters with the same first two bytes:
"あ" is `E3 81 82` and "い" is `E3 81 84` in UTF-8. -/
def marunouchiKana : List Location :=
  [mkLocation "東京都" "千代田区" "丸の内あ", mkLocation "東京都" "千代田区" "丸の内い"]

/-! ## Ranges of `float64` values (specification side) -/

/-- The value is finite and its magnitude is at most `2 ^ K`. -/
def F64.bounded (K : Nat) : F64 → Bool
  | .fin _ m e => decide (m * 2 ^ e.toNat ≤ 2 ^ K * 2 ^ (-e).toNat)
  | _ => false

/-- The value is `+0`, a positive number or `+Inf`: it is no NaN and has no minus sign. -/
def F64.nonNeg : F64 → Bool
  | .nan => false
  | .inf s => !s
  | .fin s _ _ => !s

/-- The text parses without error to a finite number of magnitude at most `2 ^ 1000`. -/
def parsesToNumber (ParseFloat : strconv.ParseFloatFn) (s : String) : Prop :=
  (ParseFloat s).2 = none ∧ F64.bounded 1000 (ParseFloat s).1 = true

/-- The value is `+Inf` or a finite number without minus sign, written `fin false 0 0` when it
is zero: the form of the results of `calculateDistance` that are no NaN. -/
def F64.IsDistance (v : F64) : Prop :=
  v = F64.inf false ∨ ∃ m e, v = F64.fin false m e ∧ (m = 0 → e = 0)

/-! ## Examples at the edge of the `float64` range -/

/-- The decimal text of `10 ^ 308`: a `1` followed by 308 zeros. -/
def hugeLatitudeText : String :=
  "1" ++ String.mk (List.replicate 308 '0')

/-- A record with the longitude of Tokyo Station and the latitude text `hugeLatitudeText`. -/
def recordWithHugeLatitude : Location :=
  { City := "Chiyoda", CityKana := "", Town := "Marunouchi", TownKana := "",
    X := "139.7673068", Y := hugeLatitudeText, Prefecture := "Tokyo", Postal := "1000005" }

/-- A `Cos` with the documented special cases `Cos(±Inf) = NaN` and `Cos(NaN) = NaN`, and
the value `1` at every finite argument. -/
def specialCasesCos : F64 → F64
  | .fin _ _ _ => 1
  | _ => .nan

/-- A geocoding API that answers every request with `recordWithHugeLatitude`. -/
def hugeLatitudeGet : String → ProviderResult :=
  fun _ => .ok [recordWithHugeLatitude]

/-- The value is a NaN, `+0`, a positive number or `+Inf`. -/
def F64.nanOrNonNeg : F64 → Bool
  | .nan => true
  | .inf s => !s
  | .fin s _ _ => !s

/-- The coordinate the handler works with for a text, `ParseFloat`'s error being dropped:
the parsed value when there is no error, `0` with a syntax error, an infinity with a range
error. -/
def handlerCoordinate (ParseFloat : strconv.ParseFloatFn) (s : String) (v : F64) : Prop :=
  match (ParseFloat s).2 with
  | none => v = (ParseFloat s).1
  | some strconv.NumError.ErrSyntax => v = 0
  | some strconv.NumError.ErrRange => v = F64.inf false ∨ v = F64.inf true

/-! ## The rounding step of `calculateDistance` (specification side) -/

/-- The value of the variable `distance` of `calculateDistance`: the distance before the
rounding step. -/
def rawDistance (Cos : F64 → F64) (x y : F64) : F64 :=
  let xt := TokyoStationX
  let yt := TokyoStationY
  let R := EarthRadius
  let dX := (x - xt) * Cos (math.Pi * (y + yt) / 360)
  let dY := y - yt
  (math.Pi * R / 180) * math.Sqrt (dX * dX + dY * dY)

/-- The value is finite and an exact multiple of `num / den`: the quotient of
`m * 2 ^ e` by `num / den` is an integer. -/
def F64.isMultipleOf (num den : Nat) : F64 → Bool
  | .fin _ m e => decide ((m * 2 ^ e.toNat * den) % (num * 2 ^ (-e).toNat) = 0)
  | _ => false

/-- Both values are finite and they differ by more than `num / den`, exactly. -/
def F64.fartherThan (num den : Nat) : F64 → F64 → Bool
  | .fin s₁ m₁ e₁, .fin s₂ m₂ e₂ =>
    let e₀ := min e₁ e₂
    let diff : Nat :=
      (F64.signed s₁ m₁ (e₁ - e₀).toNat - F64.signed s₂ m₂ (e₂ - e₀).toNat).natAbs
    decide (diff * 2 ^ e₀.toNat * den > num * 2 ^ (-e₀).toNat)
  | _, _ => false

/-- The value is finite with sign `neg` and its magnitude is exactly the integer `n`. -/
def F64.hasValue (neg : Bool) (n : Nat) : F64 → Prop
  | .fin s m e => s = neg ∧ m * 2 ^ e.toNat = n * 2 ^ (-e).toNat
  | _ => False

/-- The integer `n` is nearest to the magnitude of the finite value, the larger one of two
nearest: `n - 1/2 ≤ m * 2 ^ e < n + 1/2`. -/
def F64.nearestAwayFromZero (n : Nat) : F64 → Prop
  | .fin _ m e =>
    2 * n * 2 ^ (-e).toNat ≤ 2 * (m * 2 ^ e.toNat) + 2 ^ (-e).toNat ∧
      2 * (m * 2 ^ e.toNat) + 2 ^ (-e).toNat < 2 * (n + 1) * 2 ^ (-e).toNat
  | _ => False

/-! ## UTF-8: a byte prefix of valid text is a character prefix -/

theorem encodeRune_ne_nil (c : Nat) : strings.encodeRune c ≠ [] := by
  unfold strings.encodeRune
  split_ifs <;> simp

theorem encodeRune_prefix_free (a b : Nat) (x y : List Nat)
    (h : strings.encodeRune a ++ x = strings.encodeRune b ++ y) : a = b := by
  unfold strings.encodeRune at h
  split_ifs at h <;> simp at h <;> omega

theorem encodeRune_append_cancel (a b : Nat) (x y : List Nat)
    (h : strings.encodeRune a ++ x = strings.encodeRune b ++ y) : a = b ∧ x = y := by
  have hab := encodeRune_prefix_free a b x y h
  subst hab
  exact ⟨rfl, List.append_cancel_left h⟩

theorem char_toNat_injective (a b : Char) (h : a.toNat = b.toNat) : a = b := by
  apply Char.ext
  apply UInt32.ext
  exact h

theorem flatMap_encode_prefix_iff (p s : List Char) :
    (p.flatMap fun c => strings.encodeRune c.toNat) <+:
      (s.flatMap fun c => strings.encodeRune c.toNat) ↔ p <+: s := by
  induction p generalizing s with
  | nil => simp
  | cons a p ih =>
    cases s with
    | nil =>
      simp only [List.flatMap_cons, List.flatMap_nil, List.prefix_nil]
      constructor
      · intro h
        exact absurd (List.append_eq_nil.mp h).1 (encodeRune_ne_nil _)
      · intro h
        exact absurd h (List.cons_ne_nil _ _)
    | cons b s =>
      simp only [List.flatMap_cons]
      constructor
      · rintro ⟨t, ht⟩
        rw [List.append_assoc] at ht
        obtain ⟨hab, hrest⟩ := encodeRune_append_cancel _ _ _ _ ht
        have hab := char_toNat_injective a b hab
        subst hab
        exact (List.prefix_cons_inj a).mpr ((ih s).mp ⟨t, hrest⟩)
      · intro h
        obtain ⟨rfl, hps⟩ := List.cons_prefix_cons.mp h
        exact (List.prefix_append_right_inj _).mpr ((ih s).mpr hps)

theorem bytes_prefix_iff (p s : String) :
    strings.bytes p <+: strings.bytes s ↔ p.data <+: s.data :=
  flatMap_encode_prefix_iff p.data s.data

theorem HasPrefix_iff (s p : String) :
    strings.HasPrefix s p = true ↔ p.data <+: s.data := by
  rw [← bytes_prefix_iff]
  unfold strings.HasPrefix strings.len
  simp only [Bool.and_eq_true, decide_eq_true_eq]
  constructor
  · rintro ⟨_, h⟩
    rw [← h]
    exact List.take_prefix _ _
  · intro h
    exact ⟨h.length_le, (List.prefix_iff_eq_take.mp h).symm⟩

theorem len_lt_of_prefix_ne (p s : String) (h : p.data <+: s.data) (hne : p ≠ s) :
    strings.len p < strings.len s := by
  obtain ⟨t, ht⟩ := h
  have hs : strings.bytes s =
      strings.bytes p ++ t.flatMap fun c => strings.encodeRune c.toNat := by
    unfold strings.bytes
    rw [← ht, List.flatMap_append]
  unfold strings.len
  rw [hs, List.length_append]
  cases t with
  | nil =>
    exfalso
    apply hne
    rw [List.append_nil] at ht
    exact String.ext ht
  | cons c t =>
    have := encodeRune_ne_nil c.toNat
    have hpos : 0 < (strings.encodeRune c.toNat).length := List.length_pos.mpr this
    simp only [List.flatMap_cons, List.length_append]
    omega

theorem len_le_of_prefix (p s : String) (h : p.data <+: s.data) :
    strings.len p ≤ strings.len s :=
  ((bytes_prefix_iff p s).mpr h).length_le

/-! ## The running town prefix is a longest common prefix -/

theorem prefix_lcp_iff (u a b : List Char) : u <+: lcp a b ↔ u <+: a ∧ u <+: b := by
  induction a generalizing u b with
  | nil =>
    simp only [lcp, List.prefix_nil]
    constructor
    · rintro rfl
      exact ⟨rfl, List.nil_prefix⟩
    · rintro ⟨h, _⟩
      exact h
  | cons x a ih =>
    cases b with
    | nil =>
      simp only [lcp, List.prefix_nil]
      constructor
      · rintro rfl
        simp
      · rintro ⟨_, h⟩
        exact h
    | cons y b =>
      cases u with
      | nil => simp
      | cons z u =>
        by_cases hxy : x = y
        · subst hxy
          simp only [lcp, if_true, List.cons_prefix_cons, ih]
          tauto
        · simp only [lcp, if_neg hxy, List.prefix_nil, List.cons_prefix_cons]
          constructor
          · intro h
            exact absurd h (List.cons_ne_nil _ _)
          · rintro ⟨⟨h1, _⟩, ⟨h2, _⟩⟩
            exact absurd (h1.symm.trans h2) hxy

theorem prefix_antisymm (a b : List Char) (h1 : a <+: b) (h2 : b <+: a) : a = b :=
  h1.eq_of_length (Nat.le_antisymm h1.length_le h2.length_le)

theorem lcp_eq_left (a b : List Char) (h : a <+: b) : lcp a b = a := by
  apply prefix_antisymm
  · exact ((prefix_lcp_iff _ a b).mp (List.prefix_refl _)).1
  · exact (prefix_lcp_iff a a b).mpr ⟨List.prefix_refl _, h⟩

theorem lcp_eq_right (a b : List Char) (h : b <+: a) : lcp a b = b := by
  apply prefix_antisymm
  · exact ((prefix_lcp_iff _ a b).mp (List.prefix_refl _)).2
  · exact (prefix_lcp_iff b a b).mpr ⟨h, List.prefix_refl _⟩

theorem lcp_comm (a b : List Char) : lcp a b = lcp b a := by
  apply prefix_antisymm
  · exact (prefix_lcp_iff _ b a).mpr ((prefix_lcp_iff _ a b).mp (List.prefix_refl _)).symm
  · exact (prefix_lcp_iff _ a b).mpr ((prefix_lcp_iff _ b a).mp (List.prefix_refl _)).symm

theorem singleton_injective (a b : Char) (h : String.singleton a = String.singleton b) :
    a = b := by
  have := congrArg String.data h
  simpa [String.singleton] using this

theorem commonPartsLoop_eq (pre cs ts : List Char) (acc : List String) :
    commonPartsLoop ((pre ++ cs).map String.singleton) pre.length
        (ts.map String.singleton) acc
      = acc ++ (lcp ts cs).map String.singleton := by
  induction ts generalizing pre cs acc with
  | nil => simp [commonPartsLoop, lcp]
  | cons t ts ih =>
    cases cs with
    | nil => simp [commonPartsLoop, lcp]
    | cons c cs =>
      have hget : ((pre ++ c :: cs).map String.singleton)[pre.length]?
          = some (String.singleton c) := by
        rw [List.getElem?_map, List.getElem?_append_right (Nat.le_refl _)]
        simp
      by_cases htc : t = c
      · subst htc
        have hstep := ih (pre ++ [t]) cs (acc ++ [String.singleton t])
        simp only [List.append_assoc, List.singleton_append, List.length_append,
          List.length_singleton] at hstep
        simp only [List.map_cons, commonPartsLoop, hget, lcp, if_true]
        rw [if_pos ⟨by simp, trivial⟩]
        simpa using hstep
      · have hne : String.singleton c ≠ String.singleton t := fun h =>
          htc (singleton_injective _ _ h).symm
        simp only [List.map_cons, commonPartsLoop, hget, lcp, if_neg htc]
        rw [if_neg]
        · simp
        · rintro ⟨_, h⟩
          exact hne (Option.some.inj h)

theorem foldl_append_singletons (acc : String) (l : List Char) :
    (l.map String.singleton).foldl (fun a p => a ++ p) acc = acc ++ String.mk l := by
  induction l generalizing acc with
  | nil =>
    apply String.ext
    simp
  | cons c l ih =>
    simp only [List.map_cons, List.foldl_cons, ih]
    apply String.ext
    simp [String.singleton]

theorem Join_singletons (l : List Char) :
    strings.Join (l.map String.singleton) = String.mk l := by
  unfold strings.Join
  rw [foldl_append_singletons]
  apply String.ext
  simp

/-- One pass of the outer loop replaces `commonTown` by its longest common prefix with the
record's town. -/
theorem updateCommonTown_eq_lcp (commonTown town : String) :
    updateCommonTown commonTown town = String.mk (lcp commonTown.data town.data) := by
  unfold updateCommonTown
  by_cases h1 : strings.HasPrefix town commonTown = true
  · -- commonTown is a prefix of town
    have hp := (HasPrefix_iff _ _).mp h1
    have hle := len_le_of_prefix _ _ hp
    simp only [h1, Bool.not_true, Bool.false_and, Bool.false_eq_true, if_false]
    rw [if_neg (by omega), lcp_eq_left _ _ hp]
  · by_cases h2 : strings.HasPrefix commonTown town = true
    · -- town is a prefix of commonTown
      have hp := (HasPrefix_iff _ _).mp h2
      simp only [h2, Bool.not_true, Bool.and_false, Bool.false_eq_true, if_false]
      rw [lcp_eq_right _ _ hp]
      by_cases hlt : strings.len town < strings.len commonTown
      · rw [if_pos hlt]
      · rw [if_neg hlt]
        by_contra hne
        apply hlt
        apply len_lt_of_prefix_ne _ _ hp
        intro heq
        apply hne
        rw [heq]
    · simp only [Bool.not_eq_true] at h1 h2
      simp only [h1, h2, Bool.not_false, Bool.and_self, if_true]
      have := commonPartsLoop_eq [] commonTown.data town.data []
      simp only [List.nil_append, List.length_nil] at this
      unfold strings.Split
      rw [this, Join_singletons, lcp_comm]

/-! ## `getCommonAddress` -/

theorem prefix_lcpTowns_iff (u t : List Char) (locations : List Location) :
    u <+: lcpTowns t locations ↔ u <+: t ∧ ∀ l ∈ locations, u <+: l.Town.data := by
  induction locations generalizing t with
  | nil => simp [lcpTowns]
  | cons loc rest ih =>
    have hstep : lcpTowns t (loc :: rest) = lcpTowns (lcp t loc.Town.data) rest := rfl
    rw [hstep, ih, prefix_lcp_iff]
    simp only [List.mem_cons, forall_eq_or_imp]
    tauto

theorem getCommonAddressLoop_same (p c : String) (rest : List Location) (commonTown : String)
    (h : ∀ l ∈ rest, l.Prefecture = p ∧ l.City = c) :
    getCommonAddressLoop p c rest commonTown
      = p ++ c ++ String.mk (lcpTowns commonTown.data rest) := by
  induction rest generalizing commonTown with
  | nil => rfl
  | cons loc rest ih =>
    have hloc := h loc (List.mem_cons_self _ _)
    have hrest : ∀ l ∈ rest, l.Prefecture = p ∧ l.City = c :=
      fun l hl => h l (List.mem_cons_of_mem _ hl)
    unfold getCommonAddressLoop
    rw [if_neg (by simp [hloc.1, hloc.2]), ih _ hrest, updateCommonTown_eq_lcp]
    rfl

theorem getCommonAddressLoop_differ (p c : String) (rest : List Location) (commonTown : String)
    (h : ∃ l ∈ rest, l.Prefecture ≠ p ∨ l.City ≠ c) :
    getCommonAddressLoop p c rest commonTown = "" := by
  induction rest generalizing commonTown with
  | nil =>
    obtain ⟨l, hl, _⟩ := h
    exact absurd hl (List.not_mem_nil _)
  | cons loc rest ih =>
    unfold getCommonAddressLoop
    by_cases hloc : loc.Prefecture ≠ p ∨ loc.City ≠ c
    · rw [if_pos hloc]
    · rw [if_neg hloc]
      apply ih
      obtain ⟨l, hl, hd⟩ := h
      rcases List.mem_cons.mp hl with rfl | hl
      · exact absurd hd hloc
      · exact ⟨l, hl, hd⟩

/-- The town part returned for a list whose records agree on prefecture and city. -/
theorem getCommonAddress_same (first : Location) (rest : List Location)
    (h : ∀ l ∈ first :: rest, l.Prefecture = first.Prefecture ∧ l.City = first.City) :
    getCommonAddress (first :: rest) = first.Prefecture ++ first.City
      ++ String.mk (lcpTowns first.Town.data (first :: rest)) :=
  getCommonAddressLoop_same _ _ _ _ h

theorem getCommonAddress_differ (first : Location) (rest : List Location)
    (h : ∃ l ∈ first :: rest, l.Prefecture ≠ first.Prefecture ∨ l.City ≠ first.City) :
    getCommonAddress (first :: rest) = "" :=
  getCommonAddressLoop_differ _ _ _ _ h

/-- C1. When all records of a non-empty list have prefecture `p` and city `c`,
`getCommonAddress` returns `p + c + t` where `t` is the longest common prefix, in whole
characters, of the records' towns: `t` is a prefix of every town and every common prefix of the
towns is a prefix of `t`. -/
theorem getCommonAddress_longest_common_prefix (locations : List Location) (p c : String)
    (hne : locations ≠ [])
    (hsame : ∀ l ∈ locations, l.Prefecture = p ∧ l.City = c) :
    ∃ t : String, getCommonAddress locations = p ++ c ++ t ∧
      (∀ l ∈ locations, t.data <+: l.Town.data) ∧
      (∀ u : String, (∀ l ∈ locations, u.data <+: l.Town.data) → u.data <+: t.data) := by
  cases locations with
  | nil => exact absurd rfl hne
  | cons first rest =>
    have hfirst := hsame first (List.mem_cons_self _ _)
    refine ⟨String.mk (lcpTowns first.Town.data (first :: rest)), ?_, ?_, ?_⟩
    · rw [getCommonAddress_same first rest, hfirst.1, hfirst.2]
      intro l hl
      rw [hfirst.1, hfirst.2]
      exact hsame l hl
    · intro l hl
      exact ((prefix_lcpTowns_iff _ _ _).mp (List.prefix_refl _)).2 l hl
    · intro u hu
      exact (prefix_lcpTowns_iff _ _ _).mpr ⟨hu first (List.mem_cons_self _ _), hu⟩

/-- Witness of C1: the three Marunouchi records of Tokyo, Chiyoda give
"TokyoChiyodaMarunouchi". -/
theorem getCommonAddress_longest_common_prefix_witness :
    getCommonAddress marunouchi = "TokyoChiyodaMarunouchi" ∧
    ∃ t : String, getCommonAddress marunouchi = "Tokyo" ++ "Chiyoda" ++ t ∧
      (∀ l ∈ marunouchi, t.data <+: l.Town.data) ∧
      (∀ u : String, (∀ l ∈ marunouchi, u.data <+: l.Town.data) → u.data <+: t.data) :=
  ⟨by decide,
   getCommonAddress_longest_common_prefix marunouchi "Tokyo" "Chiyoda" (by decide) (by decide)⟩

/-- C2. If two records of the list differ in prefecture or in city, wherever they stand and
whatever their towns, `getCommonAddress` returns the empty string. -/
theorem getCommonAddress_empty_of_differ (locations : List Location) (a b : Location)
    (ha : a ∈ locations) (hb : b ∈ locations)
    (hd : a.Prefecture ≠ b.Prefecture ∨ a.City ≠ b.City) :
    getCommonAddress locations = "" := by
  cases locations with
  | nil => rfl
  | cons first rest =>
    apply getCommonAddress_differ
    by_cases hfa : a.Prefecture ≠ first.Prefecture ∨ a.City ≠ first.City
    · exact ⟨a, ha, hfa⟩
    · refine ⟨b, hb, ?_⟩
      simp only [not_or, not_not] at hfa
      rw [← hfa.1, ← hfa.2]
      rcases hd with h | h
      · exact Or.inl (Ne.symm h)
      · exact Or.inr (Ne.symm h)

/-- Witness of C2: the differing records stand second and fourth, after a first record that
agrees with the second. -/
theorem getCommonAddress_empty_of_differ_witness :
    getCommonAddress [mkLocation "Tokyo" "Chiyoda" "A", mkLocation "Tokyo" "Chiyoda" "A",
      mkLocation "Tokyo" "Chiyoda" "A", mkLocation "Tokyo" "Minato" "A"] = "" :=
  getCommonAddress_empty_of_differ _ (mkLocation "Tokyo" "Chiyoda" "A")
    (mkLocation "Tokyo" "Minato" "A") (by decide) (by decide) (by decide)

/-- C10. `getCommonAddress` gives the same string for a list of records and for every
permutation of it. -/
theorem getCommonAddress_perm (l₁ l₂ : List Location) (h : l₁.Perm l₂) :
    getCommonAddress l₁ = getCommonAddress l₂ := by
  cases l₁ with
  | nil =>
    rw [List.nil_perm.mp h]
  | cons a r₁ =>
    cases l₂ with
    | nil => exact absurd (List.perm_nil.mp h) (List.cons_ne_nil _ _)
    | cons b r₂ =>
      have ha : a ∈ b :: r₂ := h.subset (List.mem_cons_self _ _)
      have hb : b ∈ a :: r₁ := h.symm.subset (List.mem_cons_self _ _)
      by_cases hall : ∀ l ∈ a :: r₁, l.Prefecture = a.Prefecture ∧ l.City = a.City
      · have hba := hall b hb
        have hall₂ : ∀ l ∈ b :: r₂, l.Prefecture = b.Prefecture ∧ l.City = b.City := by
          intro l hl
          rw [hba.1, hba.2]
          exact hall l (h.symm.subset hl)
        rw [getCommonAddress_same a r₁ hall, getCommonAddress_same b r₂ hall₂, hba.1, hba.2]
        congr 2
        apply prefix_antisymm
        · rw [prefix_lcpTowns_iff]
          have := (prefix_lcpTowns_iff (lcpTowns a.Town.data (a :: r₁)) _ _).mp
            (List.prefix_refl _)
          exact ⟨this.2 b hb, fun l hl => this.2 l (h.symm.subset hl)⟩
        · rw [prefix_lcpTowns_iff]
          have := (prefix_lcpTowns_iff (lcpTowns b.Town.data (b :: r₂)) _ _).mp
            (List.prefix_refl _)
          exact ⟨this.2 a ha, fun l hl => this.2 l (h.subset hl)⟩
      · simp only [not_forall] at hall
        obtain ⟨l, hl, hd⟩ := hall
        have hd : l.Prefecture ≠ a.Prefecture ∨ l.City ≠ a.City := by
          by_contra hc
          simp only [not_or, not_not] at hc
          exact hd hc
        rw [getCommonAddress_differ a r₁ ⟨l, hl, hd⟩]
        symm
        apply getCommonAddress_differ
        by_cases hab : a.Prefecture ≠ b.Prefecture ∨ a.City ≠ b.City
        · exact ⟨a, ha, hab⟩
        · refine ⟨l, h.subset hl, ?_⟩
          simp only [not_or, not_not] at hab
          rw [← hab.1, ← hab.2]
          exact hd

/-- Witness of C10: the town order "ab", "a", "ac" and its rearrangement "ac", "ab", "a". -/
theorem getCommonAddress_perm_witness :
    getCommonAddress [mkLocation "P" "C" "ab", mkLocation "P" "C" "a", mkLocation "P" "C" "ac"]
      = getCommonAddress
          [mkLocation "P" "C" "ac", mkLocation "P" "C" "ab", mkLocation "P" "C" "a"] :=
  getCommonAddress_perm _ _ (by decide)

/-! ## The postal code pattern -/

theorem mem_ends_charClass (lo hi : Nat) (text : List Char) (p q : Nat) :
    q ∈ regexp.ends (.CharClass lo hi) text p ↔
      q = p + 1 ∧ ∃ c, text[p]? = some c ∧ lo ≤ c.toNat ∧ c.toNat ≤ hi := by
  unfold regexp.ends
  cases h : text[p]? with
  | none => simp
  | some c =>
    by_cases hc : lo ≤ c.toNat ∧ c.toNat ≤ hi
    · simp [hc]
    · simp only [if_neg hc, List.not_mem_nil, false_iff]
      rintro ⟨_, c', hc', hd⟩
      cases hc'
      exact hc hd

theorem mem_iterate_charClass (lo hi : Nat) (text : List Char) (n : Nat) (ps : List Nat)
    (q : Nat) :
    q ∈ regexp.iterate (regexp.ends (.CharClass lo hi) text) n ps ↔
      ∃ p ∈ ps, q = p + n ∧
        ∀ i, i < n → ∃ c, text[p + i]? = some c ∧ lo ≤ c.toNat ∧ c.toNat ≤ hi := by
  induction n generalizing ps with
  | zero => simp [regexp.iterate]
  | succ n ih =>
    unfold regexp.iterate
    rw [ih]
    constructor
    · rintro ⟨p', hp', rfl, hrest⟩
      obtain ⟨p, hp, hstep⟩ := List.mem_flatMap.mp hp'
      obtain ⟨rfl, hc⟩ := (mem_ends_charClass _ _ _ _ _).mp hstep
      refine ⟨p, hp, by omega, ?_⟩
      intro i hi
      cases i with
      | zero => simpa using hc
      | succ i =>
        have := hrest i (by omega)
        have heq : p + 1 + i = p + (i + 1) := by omega
        rw [heq] at this
        exact this
    · rintro ⟨p, hp, rfl, hall⟩
      refine ⟨p + 1, ?_, by omega, ?_⟩
      · apply List.mem_flatMap.mpr
        refine ⟨p, hp, (mem_ends_charClass _ _ _ _ _).mpr ⟨rfl, ?_⟩⟩
        simpa using hall 0 (by omega)
      · intro i hi
        have := hall (i + 1) (by omega)
        have heq : p + 1 + i = p + (i + 1) := by omega
        rw [heq]
        exact this

theorem ends_concat (r s : regexp.Regexp) (text : List Char) (pos : Nat) :
    regexp.ends (.Concat r s) text pos
      = (regexp.ends r text pos).flatMap (regexp.ends s text) := rfl

theorem ends_repeat (r : regexp.Regexp) (n : Nat) (text : List Char) (pos : Nat) :
    regexp.ends (.Repeat r n) text pos = regexp.iterate (regexp.ends r text) n [pos] := rfl

theorem ends_beginText (text : List Char) (pos : Nat) :
    regexp.ends .BeginText text pos = if pos = 0 then [pos] else [] := rfl

theorem ends_endText (text : List Char) (pos : Nat) :
    regexp.ends .EndText text pos = if pos = text.length then [pos] else [] := rfl

theorem mem_ends_postalCodePattern (text : List Char) (start q : Nat) :
    q ∈ regexp.ends postalCodePattern text start ↔
      start = 0 ∧ q = 7 ∧ text.length = 7 ∧
        ∀ i, i < 7 → ∃ c, text[i]? = some c ∧ 0x30 ≤ c.toNat ∧ c.toNat ≤ 0x39 := by
  unfold postalCodePattern
  rw [ends_concat, ends_beginText]
  simp only [List.mem_flatMap, ends_concat, ends_repeat, ends_endText, mem_iterate_charClass]
  constructor
  · rintro ⟨a, ha, b, ⟨p, hp, rfl, hall⟩, hq⟩
    by_cases hs : start = 0
    · subst hs
      simp only [if_true, List.mem_singleton] at ha
      subst ha
      simp only [List.mem_singleton] at hp
      subst hp
      by_cases hlen : 0 + 7 = text.length
      · simp only [if_pos hlen, List.mem_singleton] at hq
        refine ⟨rfl, by omega, by omega, ?_⟩
        intro i hi
        simpa using hall i hi
      · simp [if_neg hlen] at hq
    · simp [if_neg hs] at ha
  · rintro ⟨rfl, rfl, hlen, hall⟩
    refine ⟨0, by simp, 7, ⟨0, by simp, by simp, ?_⟩, by simp [hlen]⟩
    intro i hi
    simpa using hall i hi

/-- The pattern matches exactly the texts of seven characters from `0` to `9`. -/
theorem MatchString_postalCodePattern (s : String) :
    regexp.MatchString postalCodePattern s = true ↔
      s.data.length = 7 ∧ ∀ c ∈ s.data, 0x30 ≤ c.toNat ∧ c.toNat ≤ 0x39 := by
  unfold regexp.MatchString
  simp only [List.any_eq_true, List.mem_range, Bool.not_eq_true', List.isEmpty_eq_false]
  constructor
  · rintro ⟨start, _, hne⟩
    obtain ⟨q, hq⟩ := List.exists_mem_of_ne_nil _ hne
    obtain ⟨_, _, hlen, hall⟩ := (mem_ends_postalCodePattern _ _ _).mp hq
    refine ⟨hlen, ?_⟩
    intro c hc
    obtain ⟨i, hi, hget⟩ := List.mem_iff_getElem.mp hc
    obtain ⟨c', hc', hd⟩ := hall i (by omega)
    rw [List.getElem?_eq_getElem hi, hget] at hc'
    cases hc'
    exact hd
  · rintro ⟨hlen, hall⟩
    refine ⟨0, by omega, ?_⟩
    apply List.ne_nil_of_mem
    apply (mem_ends_postalCodePattern s.data 0 7).mpr
    refine ⟨rfl, rfl, hlen, ?_⟩
    intro i hi
    have hi' : i < s.data.length := by omega
    exact ⟨s.data[i], List.getElem?_eq_getElem hi', hall _ (List.getElem_mem _)⟩

theorem digit_iff (c : Char) :
    (0x30 ≤ c.toNat ∧ c.toNat ≤ 0x39) ↔
      c ∈ ['0', '1', '2', '3', '4', '5', '6', '7', '8', '9'] := by
  constructor
  · rintro ⟨h1, h2⟩
    obtain ⟨n, hn⟩ : ∃ n, c.toNat = n := ⟨_, rfl⟩
    rw [hn] at h1 h2
    interval_cases n
    all_goals
      first
      | (have hc := char_toNat_injective c '0' (hn.trans (by decide)); rw [hc]; decide)
      | (have hc := char_toNat_injective c '1' (hn.trans (by decide)); rw [hc]; decide)
      | (have hc := char_toNat_injective c '2' (hn.trans (by decide)); rw [hc]; decide)
      | (have hc := char_toNat_injective c '3' (hn.trans (by decide)); rw [hc]; decide)
      | (have hc := char_toNat_injective c '4' (hn.trans (by decide)); rw [hc]; decide)
      | (have hc := char_toNat_injective c '5' (hn.trans (by decide)); rw [hc]; decide)
      | (have hc := char_toNat_injective c '6' (hn.trans (by decide)); rw [hc]; decide)
      | (have hc := char_toNat_injective c '7' (hn.trans (by decide)); rw [hc]; decide)
      | (have hc := char_toNat_injective c '8' (hn.trans (by decide)); rw [hc]; decide)
      | (have hc := char_toNat_injective c '9' (hn.trans (by decide)); rw [hc]; decide)
  · intro h
    simp only [List.mem_cons, List.mem_singleton, List.not_mem_nil, or_false] at h
    rcases h with h | h | h | h | h | h | h | h | h | h <;> subst h <;> decide

/-! ## `addressHandler`: validation, logging and reply -/

theorem validPostalCode_iff (s : String) :
    regexp.MatchString postalCodePattern s = true ↔
      s.data.length = 7 ∧
        ∀ c ∈ s.data, c ∈ ['0', '1', '2', '3', '4', '5', '6', '7', '8', '9'] := by
  rw [MatchString_postalCodePattern]
  constructor
  · rintro ⟨hlen, hall⟩
    exact ⟨hlen, fun c hc => (digit_iff c).mp (hall c hc)⟩
  · rintro ⟨hlen, hall⟩
    exact ⟨hlen, fun c hc => (digit_iff c).mpr (hall c hc)⟩

/-- The run of the handler on a request that is no GET. -/
theorem addressHandler_not_get (Cos : F64 → F64) (ParseFloat : strconv.ParseFloatFn)
    (httpGet : String → ProviderResult) (db : DB) (r : Request) (h : r.Method ≠ "GET") :
    addressHandler Cos ParseFloat httpGet db r = ⟨.error "Method not allowed" 405, db, []⟩ := by
  unfold addressHandler
  rw [if_pos h]

/-- The run of the handler on a GET request whose postal code does not match the pattern. -/
theorem addressHandler_no_match (Cos : F64 → F64) (ParseFloat : strconv.ParseFloatFn)
    (httpGet : String → ProviderResult) (db : DB) (r : Request) (h : r.Method = "GET")
    (hm : regexp.MatchString postalCodePattern r.postal_code = false) :
    addressHandler Cos ParseFloat httpGet db r
      = ⟨.error "Invalid postal code format. Must be 7 digits." 400, db, []⟩ := by
  unfold addressHandler
  simp [h, hm]

/-- The run of the handler on a GET request whose postal code matches the pattern. -/
theorem addressHandler_match (Cos : F64 → F64) (ParseFloat : strconv.ParseFloatFn)
    (httpGet : String → ProviderResult) (db : DB) (r : Request) (h : r.Method = "GET")
    (hm : regexp.MatchString postalCodePattern r.postal_code = true) :
    addressHandler Cos ParseFloat httpGet db r =
      match httpGet
        ("https://geoapi.heartrails.com/api/json?method=searchByPostal&postal="
          ++ r.postal_code) with
      | .getError =>
        ⟨.error "Failed to fetch data from external API" 500, db,
          [.httpGet ("https://geoapi.heartrails.com/api/json?method=searchByPostal&postal="
            ++ r.postal_code)]⟩
      | .readError =>
        ⟨.error "Failed to read response body" 500, db,
          [.httpGet ("https://geoapi.heartrails.com/api/json?method=searchByPostal&postal="
            ++ r.postal_code)]⟩
      | .unmarshalError =>
        ⟨.error "Failed to parse external API response" 500, db,
          [.httpGet ("https://geoapi.heartrails.com/api/json?method=searchByPostal&postal="
            ++ r.postal_code)]⟩
      | .ok locations =>
        if locations.length = 0 then
          ⟨.error "No location found for the given postal code" 404, db,
            [.httpGet ("https://geoapi.heartrails.com/api/json?method=searchByPostal&postal="
              ++ r.postal_code)]⟩
        else
          ⟨.json
              { PostalCode := r.postal_code, HitCount := locations.length,
                Address := getCommonAddress locations,
                TokyoStaDistance := maxDistanceLoop Cos ParseFloat locations 0 },
            (saveAccessLog db r.postal_code).1,
            [.httpGet ("https://geoapi.heartrails.com/api/json?method=searchByPostal&postal="
              ++ r.postal_code), .saveAccessLog r.postal_code] ++
              (match (saveAccessLog db r.postal_code).2 with
                | some err => [.logPrintf ("Failed to save access log: " ++ err)]
                | none => [])⟩ := by
  unfold addressHandler
  simp only [h, hm, ne_eq, not_true_eq_false, if_false, Bool.not_true, Bool.false_eq_true]

/-- C7. A GET request is rejected with status 400 exactly when its `postal_code` is not a
text of exactly seven characters that are all ASCII digits `0` to `9`; the rejected request
gets the invalid-format error and no call is made (the geocoding API is not asked), while an
accepted request asks the geocoding API first. -/
theorem addressHandler_rejects_iff_not_seven_digits (Cos : F64 → F64)
    (ParseFloat : strconv.ParseFloatFn) (httpGet : String → ProviderResult) (db : DB)
    (r : Request) (hget : r.Method = "GET") :
    ((addressHandler Cos ParseFloat httpGet db r).reply.status = 400 ↔
      ¬ (r.postal_code.data.length = 7 ∧
        ∀ c ∈ r.postal_code.data, c ∈ ['0', '1', '2', '3', '4', '5', '6', '7', '8', '9'])) ∧
    ((addressHandler Cos ParseFloat httpGet db r).reply.status = 400 →
      (addressHandler Cos ParseFloat httpGet db r).reply
          = .error "Invalid postal code format. Must be 7 digits." 400 ∧
        (addressHandler Cos ParseFloat httpGet db r).calls = []) ∧
    ((addressHandler Cos ParseFloat httpGet db r).reply.status ≠ 400 →
      (addressHandler Cos ParseFloat httpGet db r).calls.head? = some (.httpGet
        ("https://geoapi.heartrails.com/api/json?method=searchByPostal&postal="
          ++ r.postal_code))) := by
  rw [← validPostalCode_iff]
  cases hm : regexp.MatchString postalCodePattern r.postal_code with
  | false =>
    rw [addressHandler_no_match Cos ParseFloat httpGet db r hget hm]
    simp [Reply.status]
  | true =>
    rw [addressHandler_match Cos ParseFloat httpGet db r hget hm]
    cases httpGet ("https://geoapi.heartrails.com/api/json?method=searchByPostal&postal="
        ++ r.postal_code) with
    | getError => simp [Reply.status]
    | readError => simp [Reply.status]
    | unmarshalError => simp [Reply.status]
    | ok locations =>
      by_cases hlen : locations.length = 0
      · simp [hlen, Reply.status]
      · simp [hlen, Reply.status]

/-- Witness of C7: "12345" and "abcdefg" are rejected with status 400, "1000001" is not. -/
theorem addressHandler_rejects_iff_not_seven_digits_witness :
    (addressHandler constantCos strconv.decimalParseFloat marunouchiGet workingDB
        ⟨"GET", "12345"⟩).reply.status = 400 ∧
    (addressHandler constantCos strconv.decimalParseFloat marunouchiGet workingDB
        ⟨"GET", "abcdefg"⟩).reply.status = 400 ∧
    (addressHandler constantCos strconv.decimalParseFloat marunouchiGet workingDB
        ⟨"GET", "1000001"⟩).reply.status ≠ 400 :=
  ⟨(addressHandler_rejects_iff_not_seven_digits constantCos strconv.decimalParseFloat
      marunouchiGet workingDB ⟨"GET", "12345"⟩ rfl).1.mpr (by decide),
   (addressHandler_rejects_iff_not_seven_digits constantCos strconv.decimalParseFloat
      marunouchiGet workingDB ⟨"GET", "abcdefg"⟩ rfl).1.mpr (by decide),
   fun h => (addressHandler_rejects_iff_not_seven_digits constantCos strconv.decimalParseFloat
      marunouchiGet workingDB ⟨"GET", "1000001"⟩ rfl).1.mp h (by decide)⟩

/-- The run of the handler sends either an error with a status other than 200 or the JSON
response, and makes one `saveAccessLog` call in the second case and none in the first. -/
theorem addressHandler_cases (Cos : F64 → F64) (ParseFloat : strconv.ParseFloatFn)
    (httpGet : String → ProviderResult) (db : DB) (r : Request) :
    (∃ message code, code ≠ 200 ∧
        (addressHandler Cos ParseFloat httpGet db r).reply = .error message code ∧
        (addressHandler Cos ParseFloat httpGet db r).db = db ∧
        saveAccessLogCalls (addressHandler Cos ParseFloat httpGet db r).calls = 0) ∨
    (∃ response,
        (addressHandler Cos ParseFloat httpGet db r).reply = .json response ∧
        (addressHandler Cos ParseFloat httpGet db r).db = (saveAccessLog db r.postal_code).1 ∧
        saveAccessLogCalls (addressHandler Cos ParseFloat httpGet db r).calls = 1 ∧
        Call.saveAccessLog r.postal_code
          ∈ (addressHandler Cos ParseFloat httpGet db r).calls) := by
  by_cases hget : r.Method = "GET"
  · cases hm : regexp.MatchString postalCodePattern r.postal_code with
    | false =>
      rw [addressHandler_no_match Cos ParseFloat httpGet db r hget hm]
      exact Or.inl ⟨_, _, by decide, rfl, rfl, rfl⟩
    | true =>
      rw [addressHandler_match Cos ParseFloat httpGet db r hget hm]
      cases httpGet ("https://geoapi.heartrails.com/api/json?method=searchByPostal&postal="
          ++ r.postal_code) with
      | getError => exact Or.inl ⟨_, _, by decide, rfl, rfl, rfl⟩
      | readError => exact Or.inl ⟨_, _, by decide, rfl, rfl, rfl⟩
      | unmarshalError => exact Or.inl ⟨_, _, by decide, rfl, rfl, rfl⟩
      | ok locations =>
        by_cases hlen : locations.length = 0
        · dsimp only
          rw [if_pos hlen]
          exact Or.inl ⟨_, _, by decide, rfl, rfl, rfl⟩
        · dsimp only
          rw [if_neg hlen]
          refine Or.inr ⟨_, rfl, rfl, ?_, ?_⟩
          · cases (saveAccessLog db r.postal_code).2 <;> rfl
          · simp
  · rw [addressHandler_not_get Cos ParseFloat httpGet db r hget]
    exact Or.inl ⟨_, _, by decide, rfl, rfl, rfl⟩

/-- C8. In every run of `addressHandler`, the access-log append is attempted exactly once when
the lookup produces a result (the JSON response) and never when it fails (an error reply).
The one attempt is the call `saveAccessLog(postalCode)`, whose `INSERT` is run on the store: the
store after the run is the store `saveAccessLog` leaves, with exactly one more row, the postal
code, when `db.Exec` succeeds, and with the same rows when it fails.  A failed lookup leaves
the store as it was; in particular, when the geocoding API returns no location record for a
valid postal code, the reply is the 404 error and the store is unchanged. -/
theorem addressHandler_log_append (Cos : F64 → F64) (ParseFloat : strconv.ParseFloatFn)
    (httpGet : String → ProviderResult) (db : DB) (r : Request) :
    ((∃ response, (addressHandler Cos ParseFloat httpGet db r).reply = .json response) →
      saveAccessLogCalls (addressHandler Cos ParseFloat httpGet db r).calls = 1 ∧
        Call.saveAccessLog r.postal_code ∈ (addressHandler Cos ParseFloat httpGet db r).calls ∧
        (addressHandler Cos ParseFloat httpGet db r).db = (saveAccessLog db r.postal_code).1 ∧
        (db.execError = none →
          (addressHandler Cos ParseFloat httpGet db r).db.access_logs
            = db.access_logs ++ [r.postal_code]) ∧
        (db.execError ≠ none →
          (addressHandler Cos ParseFloat httpGet db r).db.access_logs = db.access_logs)) ∧
    ((∃ message code,
        (addressHandler Cos ParseFloat httpGet db r).reply = .error message code) →
      saveAccessLogCalls (addressHandler Cos ParseFloat httpGet db r).calls = 0 ∧
        (addressHandler Cos ParseFloat httpGet db r).db = db) ∧
    (r.Method = "GET" →
      regexp.MatchString postalCodePattern r.postal_code = true →
      httpGet ("https://geoapi.heartrails.com/api/json?method=searchByPostal&postal="
        ++ r.postal_code) = .ok [] →
      (addressHandler Cos ParseFloat httpGet db r).reply
          = .error "No location found for the given postal code" 404 ∧
        saveAccessLogCalls (addressHandler Cos ParseFloat httpGet db r).calls = 0 ∧
        (addressHandler Cos ParseFloat httpGet db r).db = db) := by
  refine ⟨?_, ?_, ?_⟩
  · rintro ⟨response, hresp⟩
    rcases addressHandler_cases Cos ParseFloat httpGet db r with
      ⟨m, c, _, hrep, _, _⟩ | ⟨_, _, hdb, hcalls, hmem⟩
    · rw [hrep] at hresp
      cases hresp
    · refine ⟨hcalls, hmem, hdb, ?_, ?_⟩
      · intro hnone
        rw [hdb]
        unfold saveAccessLog
        rw [hnone]
      · intro hsome
        rw [hdb]
        unfold saveAccessLog
        cases herr : db.execError with
        | none => exact absurd herr hsome
        | some err => rfl
  · rintro ⟨message, code, herr⟩
    rcases addressHandler_cases Cos ParseFloat httpGet db r with
      ⟨_, _, _, _, hdb, hcalls⟩ | ⟨resp, hrep, _, _, _⟩
    · exact ⟨hcalls, hdb⟩
    · rw [hrep] at herr
      cases herr
  · intro hget hm hnone
    rw [addressHandler_match Cos ParseFloat httpGet db r hget hm, hnone]
    exact ⟨rfl, rfl, rfl⟩

/-- Witness of C8: the Marunouchi lookup of "1000001" on a working store is answered with the
JSON response after one `saveAccessLog` call that adds the row "1000001" to the one earlier
row; the same lookup at a provider without locations is answered with 404 and the store
keeps its one row. -/
theorem addressHandler_log_append_witness :
    (saveAccessLogCalls (addressHandler constantCos strconv.decimalParseFloat marunouchiGet
        workingDB ⟨"GET", "1000001"⟩).calls = 1 ∧
      (addressHandler constantCos strconv.decimalParseFloat marunouchiGet workingDB
        ⟨"GET", "1000001"⟩).db.access_logs = ["2000002", "1000001"]) ∧
    ((addressHandler constantCos strconv.decimalParseFloat emptyGet workingDB
        ⟨"GET", "1000001"⟩).reply
      = .error "No location found for the given postal code" 404 ∧
    saveAccessLogCalls (addressHandler constantCos strconv.decimalParseFloat emptyGet workingDB
        ⟨"GET", "1000001"⟩).calls = 0 ∧
    (addressHandler constantCos strconv.decimalParseFloat emptyGet workingDB
        ⟨"GET", "1000001"⟩).db = workingDB) :=
  ⟨⟨((addressHandler_log_append constantCos strconv.decimalParseFloat marunouchiGet workingDB
        ⟨"GET", "1000001"⟩).1 ⟨_, rfl⟩).1,
    ((addressHandler_log_append constantCos strconv.decimalParseFloat marunouchiGet workingDB
        ⟨"GET", "1000001"⟩).1 ⟨_, rfl⟩).2.2.2.1 rfl⟩,
   (addressHandler_log_append constantCos strconv.decimalParseFloat emptyGet workingDB
    ⟨"GET", "1000001"⟩).2.2 rfl (by decide) rfl⟩

/-- C9. For a valid postal code and a provider answer with at least one location record, the
reply of `addressHandler` is the JSON response with the postal code, the number of records,
the common address and the largest distance, and it is the same whether `db.Exec` in
`saveAccessLog` fails or succeeds; the failure only adds a `log.Printf` call. -/
theorem addressHandler_reply_ignores_log_failure (Cos : F64 → F64)
    (ParseFloat : strconv.ParseFloatFn) (httpGet : String → ProviderResult)
    (rows : List String) (err : String) (r : Request) (locations : List Location)
    (hget : r.Method = "GET")
    (hvalid : r.postal_code.data.length = 7 ∧
      ∀ c ∈ r.postal_code.data, c ∈ ['0', '1', '2', '3', '4', '5', '6', '7', '8', '9'])
    (hok : httpGet ("https://geoapi.heartrails.com/api/json?method=searchByPostal&postal="
      ++ r.postal_code) = .ok locations)
    (hne : locations ≠ []) :
    (addressHandler Cos ParseFloat httpGet ⟨rows, some err⟩ r).reply
        = (addressHandler Cos ParseFloat httpGet ⟨rows, none⟩ r).reply ∧
    (addressHandler Cos ParseFloat httpGet ⟨rows, some err⟩ r).reply
        = .json { PostalCode := r.postal_code, HitCount := locations.length,
                  Address := getCommonAddress locations,
                  TokyoStaDistance := maxDistanceLoop Cos ParseFloat locations 0 } ∧
    (addressHandler Cos ParseFloat httpGet ⟨rows, some err⟩ r).calls =
      [.httpGet ("https://geoapi.heartrails.com/api/json?method=searchByPostal&postal="
          ++ r.postal_code), .saveAccessLog r.postal_code,
        .logPrintf ("Failed to save access log: " ++ err)] := by
  have hm := (validPostalCode_iff r.postal_code).mpr hvalid
  have hlen : locations.length ≠ 0 := fun h => hne (List.length_eq_zero.mp h)
  rw [addressHandler_match Cos ParseFloat httpGet _ r hget hm,
    addressHandler_match Cos ParseFloat httpGet _ r hget hm, hok]
  dsimp only
  rw [if_neg hlen, if_neg hlen]
  exact ⟨rfl, rfl, rfl⟩

/-- Witness of C9: the Marunouchi lookup of "1000001" with a failing and a working store. -/
theorem addressHandler_reply_ignores_log_failure_witness :
    (addressHandler constantCos strconv.decimalParseFloat marunouchiGet
        ⟨["2000002"], some "connection refused"⟩ ⟨"GET", "1000001"⟩).reply
      = (addressHandler constantCos strconv.decimalParseFloat marunouchiGet
        ⟨["2000002"], none⟩ ⟨"GET", "1000001"⟩).reply :=
  (addressHandler_reply_ignores_log_failure constantCos strconv.decimalParseFloat marunouchiGet
    ["2000002"] "connection refused" ⟨"GET", "1000001"⟩ marunouchi rfl (by decide) rfl
    (by decide)).1

/-! ## Rounding: sign and zero -/

set_option maxRecDepth 100000
set_option exponentiation.threshold 5000

theorem roundQuotient_zero (d : Nat) : F64.roundQuotient 0 d = 0 := by
  unfold F64.roundQuotient
  simp

theorem roundRat_zero (neg : Bool) (den : Nat) : F64.roundRat neg 0 den = F64.fin neg 0 0 := by
  unfold F64.roundRat
  simp only [Nat.zero_mul, roundQuotient_zero]
  rfl

theorem roundDyadic_zero (neg : Bool) (e : Int) :
    F64.roundDyadic neg 0 e = F64.fin neg 0 0 := by
  unfold F64.roundDyadic
  rw [Nat.zero_mul, roundRat_zero]

/-- A packed value keeps the sign it is given, is no NaN, and is `fin neg 0 0` when zero. -/
theorem pack_cases (neg : Bool) (m : Nat) (E : Int) :
    F64.pack neg m E = F64.inf neg ∨
      ∃ m' e', F64.pack neg m E = F64.fin neg m' e' ∧ (m' = 0 → e' = 0) := by
  unfold F64.pack
  split_ifs with h1 h2 h3
  · exact Or.inr ⟨0, 0, rfl, fun _ => rfl⟩
  · exact Or.inl rfl
  · exact Or.inr ⟨2 ^ 52, _, rfl, fun h => absurd h (by norm_num)⟩
  · exact Or.inr ⟨_, _, rfl, fun h => absurd h h1⟩

theorem roundRat_cases (neg : Bool) (num den : Nat) :
    F64.roundRat neg num den = F64.inf neg ∨
      ∃ m e, F64.roundRat neg num den = F64.fin neg m e ∧ (m = 0 → e = 0) :=
  pack_cases neg _ _

theorem roundDyadic_cases (neg : Bool) (m : Nat) (e : Int) :
    F64.roundDyadic neg m e = F64.inf neg ∨
      ∃ m' e', F64.roundDyadic neg m e = F64.fin neg m' e' ∧ (m' = 0 → e' = 0) :=
  roundRat_cases neg _ _

theorem mul_zero_fin (s s' : Bool) (e : Int) (m' : Nat) (e' : Int) :
    F64.fin s 0 e * F64.fin s' m' e' = F64.fin (xor s s') 0 0 := by
  show F64.mul _ _ = _
  simp only [F64.mul]
  rw [Nat.zero_mul, roundDyadic_zero]

theorem one_eq : (1 : F64) = F64.fin false 4503599627370496 (-52) := by decide!

theorem constantCos_spec : math.CosSpec constantCos :=
  fun _ _ _ => ⟨false, 4503599627370496, -52, one_eq⟩

/-- C6. `calculateDistance` at Tokyo Station's own coordinates, `TokyoStationX` and
`TokyoStationY`, returns exactly `+0.0`. -/
theorem calculateDistance_reference_point (Cos : F64 → F64) (hCos : math.CosSpec Cos) :
    calculateDistance Cos TokyoStationX TokyoStationY = F64.fin false 0 0 := by
  have harg : math.Pi * (TokyoStationY + TokyoStationY) / 360
      = F64.fin false 5609235286528949 (-53) := by decide!
  have hx : TokyoStationX - TokyoStationX = F64.fin false 0 0 := by decide!
  unfold calculateDistance
  simp only []
  rw [harg, hx]
  obtain ⟨s', m', e', hc⟩ := hCos false 5609235286528949 (-53)
  rw [hc, mul_zero_fin]
  cases s' <;> decide!

/-- Witness of C6: with the constant cosine `1` the distance of the reference point is `+0`. -/
theorem calculateDistance_reference_point_witness :
    calculateDistance constantCos TokyoStationX TokyoStationY = F64.fin false 0 0 :=
  calculateDistance_reference_point constantCos constantCos_spec

/-! ## Rounding: no overflow below `2 ^ 1024` -/

theorem bitLenAux_zero (fuel : Nat) : F64.bitLenAux fuel 0 = 0 := by
  cases fuel <;> simp [F64.bitLenAux]

theorem bitLenAux_spec (fuel n : Nat) (h : n ≤ fuel) :
    n < 2 ^ F64.bitLenAux fuel n ∧ (n ≠ 0 → 2 ^ (F64.bitLenAux fuel n - 1) ≤ n) := by
  induction fuel generalizing n with
  | zero =>
    have hn : n = 0 := by omega
    subst hn
    simp [F64.bitLenAux]
  | succ fuel ih =>
    unfold F64.bitLenAux
    by_cases hn : n = 0
    · subst hn
      simp
    · rw [if_neg hn]
      obtain ⟨hlt, hge⟩ := ih (n / 2) (by omega)
      constructor
      · rw [Nat.pow_succ]
        omega
      · intro _
        rw [Nat.add_sub_cancel]
        by_cases hhalf : n / 2 = 0
        · rw [hhalf, bitLenAux_zero]
          simp
          omega
        · have hge' := hge hhalf
          have hpos : F64.bitLenAux fuel (n / 2) ≠ 0 := by
            intro h0
            rw [h0] at hlt
            simp at hlt
            exact hhalf hlt
          obtain ⟨b, hb⟩ := Nat.exists_eq_succ_of_ne_zero hpos
          rw [hb] at hge' ⊢
          rw [Nat.succ_sub_one] at hge'
          rw [Nat.pow_succ]
          omega

theorem lt_pow_bitLen (n : Nat) : n < 2 ^ F64.bitLen n :=
  (bitLenAux_spec n n (Nat.le_refl n)).1

theorem pow_bitLen_le (n : Nat) (h : n ≠ 0) : 2 ^ (F64.bitLen n - 1) ≤ n :=
  (bitLenAux_spec n n (Nat.le_refl n)).2 h

theorem bitLen_le_of_le_mul_pow (num den K : Nat) (h : num ≤ den * 2 ^ K) :
    F64.bitLen num ≤ F64.bitLen den + K := by
  by_cases hn : num = 0
  · subst hn
    have : F64.bitLen 0 = 0 := bitLenAux_zero 0
    omega
  · have h1 := pow_bitLen_le num hn
    have h2 := lt_pow_bitLen den
    have h3 : num < 2 ^ (F64.bitLen den + K) := by
      rw [Nat.pow_add]
      calc num ≤ den * 2 ^ K := h
        _ < 2 ^ F64.bitLen den * 2 ^ K :=
          Nat.mul_lt_mul_of_pos_right h2 (Nat.pow_pos (by norm_num))
    have h4 : 2 ^ (F64.bitLen num - 1) < 2 ^ (F64.bitLen den + K) := Nat.lt_of_le_of_lt h1 h3
    have h5 := (Nat.pow_lt_pow_iff_right (by norm_num : 1 < 2)).mp h4
    omega

theorem lastPlace_ge (num den : Nat) : -1074 ≤ F64.lastPlace num den := by
  unfold F64.lastPlace
  exact le_max_right _ _

theorem lastPlace_le (num den K : Nat) (h : num ≤ den * 2 ^ K) :
    F64.lastPlace num den ≤ (K : Int) := by
  have hb := bitLen_le_of_le_mul_pow num den K h
  unfold F64.lastPlace
  simp only []
  split_ifs <;> omega

theorem roundQuotient_le (n d B : Nat) (hd : 0 < d) (h : n ≤ d * B) :
    F64.roundQuotient n d ≤ B := by
  have hdm := Nat.div_add_mod n d
  have hq : n / d ≤ B := by
    apply Nat.div_le_of_le_mul
    exact h
  unfold F64.roundQuotient
  simp only []
  split_ifs with hup
  · have hr : 0 < n % d := by
      rcases hup with h1 | ⟨h1, _⟩ <;> omega
    by_contra hlt
    have hqB : n / d = B := by omega
    rw [hqB] at hdm
    omega
  · exact hq

theorem pow_two_le (a b : Nat) (h : a ≤ b) : 2 ^ a ≤ 2 ^ b :=
  Nat.pow_le_pow_right (by norm_num) h

/-- The bound `m * 2 ^ e ≤ 2 ^ K`, with every exponent moved up by `N`. -/
theorem bounded_shift (m : Nat) (e : Int) (K N : Nat) (h : 0 ≤ e + (N : Int)) :
    m * 2 ^ e.toNat ≤ 2 ^ K * 2 ^ (-e).toNat ↔ m * 2 ^ (e + (N : Int)).toNat ≤ 2 ^ (K + N) := by
  have hexp : e.toNat + N = (e + (N : Int)).toNat + (-e).toNat := by omega
  have hpos : 0 < 2 ^ (-e).toNat := Nat.pow_pos (by norm_num)
  have hposN : 0 < 2 ^ N := Nat.pow_pos (by norm_num)
  constructor
  · intro hb
    apply Nat.le_of_mul_le_mul_right _ hpos
    calc m * 2 ^ (e + (N : Int)).toNat * 2 ^ (-e).toNat
        = m * 2 ^ e.toNat * 2 ^ N := by
          rw [Nat.mul_assoc, Nat.mul_assoc, ← Nat.pow_add, ← Nat.pow_add, hexp]
      _ ≤ 2 ^ K * 2 ^ (-e).toNat * 2 ^ N := Nat.mul_le_mul_right _ hb
      _ = 2 ^ (K + N) * 2 ^ (-e).toNat := by
          rw [Nat.pow_add, Nat.mul_assoc, Nat.mul_assoc, Nat.mul_comm (2 ^ (-e).toNat)]
  · intro hb
    apply Nat.le_of_mul_le_mul_right _ hposN
    calc m * 2 ^ e.toNat * 2 ^ N
        = m * 2 ^ (e + (N : Int)).toNat * 2 ^ (-e).toNat := by
          rw [Nat.mul_assoc, Nat.mul_assoc, ← Nat.pow_add, ← Nat.pow_add, hexp]
      _ ≤ 2 ^ (K + N) * 2 ^ (-e).toNat := Nat.mul_le_mul_right _ hb
      _ = 2 ^ K * 2 ^ (-e).toNat * 2 ^ N := by
          rw [Nat.pow_add, Nat.mul_assoc, Nat.mul_assoc, Nat.mul_comm (2 ^ (-e).toNat)]

/-- A value of magnitude at most `2 ^ K`, `K ≤ 1023`, packs to a finite number of magnitude
at most `2 ^ K`. -/
theorem pack_bounded (neg : Bool) (m : Nat) (E : Int) (K : Nat) (hE : -1074 ≤ E)
    (hEK : E ≤ (K : Int)) (hK : K ≤ 1023) (hm : m ≤ 2 ^ ((K : Int) - E).toNat) :
    ∃ m' e', F64.pack neg m E = F64.fin neg m' e' ∧
      F64.bounded K (F64.fin neg m' e') = true := by
  have hscaled : m * 2 ^ (E + 1074).toNat ≤ 2 ^ (K + 1074) := by
    calc m * 2 ^ (E + 1074).toNat
        ≤ 2 ^ ((K : Int) - E).toNat * 2 ^ (E + 1074).toNat := Nat.mul_le_mul_right _ hm
      _ = 2 ^ (K + 1074) := by
          rw [← Nat.pow_add]
          congr 1
          omega
  unfold F64.pack
  split_ifs with h1 h2 h3
  · exact ⟨0, 0, rfl, by simp [F64.bounded]⟩
  · exfalso
    have : 2 ^ (K + 1074) < 2 ^ 2098 :=
      Nat.pow_lt_pow_right (by norm_num) (by omega)
    omega
  · refine ⟨2 ^ 52, E + 1, rfl, ?_⟩
    simp only [F64.bounded, decide_eq_true_eq]
    rw [bounded_shift (2 ^ 52) (E + 1) K 1074 (by omega)]
    rw [h3] at hscaled
    have hexp : 53 + (E + 1074).toNat ≤ K + 1074 := by
      rw [← Nat.pow_add] at hscaled
      exact (Nat.pow_le_pow_iff_right (by norm_num : 1 < 2)).mp hscaled
    rw [← Nat.pow_add]
    apply pow_two_le
    omega
  · refine ⟨m, E, rfl, ?_⟩
    simp only [F64.bounded, decide_eq_true_eq]
    rw [bounded_shift m E K 1074 (by omega)]
    exact hscaled

/-- Rounding a value of at most `2 ^ K`, `K ≤ 1023`, gives a finite number of magnitude at
most `2 ^ K`: there is no overflow. -/
theorem roundRat_bounded (neg : Bool) (num den K : Nat) (hden : 0 < den)
    (h : num ≤ den * 2 ^ K) (hK : K ≤ 1023) :
    ∃ m e, F64.roundRat neg num den = F64.fin neg m e ∧
      F64.bounded K (F64.fin neg m e) = true := by
  have hE := lastPlace_ge num den
  have hEK := lastPlace_le num den K h
  unfold F64.roundRat
  simp only []
  apply pack_bounded neg _ _ K hE hEK hK
  apply roundQuotient_le
  · exact Nat.mul_pos hden (Nat.pow_pos (by norm_num))
  · calc num * 2 ^ (-F64.lastPlace num den).toNat
        ≤ den * 2 ^ K * 2 ^ (-F64.lastPlace num den).toNat := Nat.mul_le_mul_right _ h
      _ = den * 2 ^ (F64.lastPlace num den).toNat
            * 2 ^ ((K : Int) - F64.lastPlace num den).toNat := by
          rw [Nat.mul_assoc, Nat.mul_assoc, ← Nat.pow_add, ← Nat.pow_add]
          congr 2
          omega

theorem bounded_mono (K K' : Nat) (v : F64) (hK : K ≤ K') (h : F64.bounded K v = true) :
    F64.bounded K' v = true := by
  cases v with
  | nan => simp [F64.bounded] at h
  | inf s => simp [F64.bounded] at h
  | fin s m e =>
    simp only [F64.bounded, decide_eq_true_eq] at h ⊢
    exact Nat.le_trans h (Nat.mul_le_mul_right _ (pow_two_le K K' hK))

theorem roundDyadic_bounded (neg : Bool) (m : Nat) (e : Int) (K : Nat)
    (h : m * 2 ^ e.toNat ≤ 2 ^ K * 2 ^ (-e).toNat) (hK : K ≤ 1023) :
    ∃ m' e', F64.roundDyadic neg m e = F64.fin neg m' e' ∧
      F64.bounded K (F64.fin neg m' e') = true := by
  unfold F64.roundDyadic
  apply roundRat_bounded neg _ _ K (Nat.pow_pos (by norm_num)) _ hK
  rw [Nat.mul_comm (2 ^ (-e).toNat)]
  exact h

/-- The product of finite numbers of magnitudes at most `2 ^ K₁` and `2 ^ K₂` is finite, of
magnitude at most `2 ^ (K₁ + K₂)`, when `K₁ + K₂ ≤ 1023`. -/
theorem mul_bounded (x y : F64) (K₁ K₂ : Nat) (hx : F64.bounded K₁ x = true)
    (hy : F64.bounded K₂ y = true) (hK : K₁ + K₂ ≤ 1023) :
    ∃ s m e, x * y = F64.fin s m e ∧ F64.bounded (K₁ + K₂) (F64.fin s m e) = true := by
  cases x with
  | nan => simp [F64.bounded] at hx
  | inf s => simp [F64.bounded] at hx
  | fin s₁ m₁ e₁ =>
    cases y with
    | nan => simp [F64.bounded] at hy
    | inf s => simp [F64.bounded] at hy
    | fin s₂ m₂ e₂ =>
      simp only [F64.bounded, decide_eq_true_eq] at hx hy
      show ∃ s m e, F64.mul _ _ = F64.fin s m e ∧ _
      simp only [F64.mul]
      have hprod : m₁ * m₂ * 2 ^ (e₁ + e₂).toNat
          ≤ 2 ^ (K₁ + K₂) * 2 ^ (-(e₁ + e₂)).toNat := by
        rw [bounded_shift (m₁ * m₂) (e₁ + e₂) (K₁ + K₂) ((-e₁).toNat + (-e₂).toNat)
          (by omega)]
        have hexp : (e₁ + e₂ + (((-e₁).toNat + (-e₂).toNat : Nat) : Int)).toNat
            = e₁.toNat + e₂.toNat := by omega
        rw [hexp]
        calc m₁ * m₂ * 2 ^ (e₁.toNat + e₂.toNat)
            = (m₁ * 2 ^ e₁.toNat) * (m₂ * 2 ^ e₂.toNat) := by
              rw [Nat.pow_add]
              ring
          _ ≤ (2 ^ K₁ * 2 ^ (-e₁).toNat) * (2 ^ K₂ * 2 ^ (-e₂).toNat) :=
              Nat.mul_le_mul hx hy
          _ = 2 ^ (K₁ + K₂ + ((-e₁).toNat + (-e₂).toNat)) := by
              rw [Nat.pow_add, Nat.pow_add, Nat.pow_add]
              ring
      obtain ⟨m', e', hr, hb⟩ := roundDyadic_bounded (xor s₁ s₂) _ _ _ hprod hK
      exact ⟨_, m', e', hr, hb⟩

theorem natAbs_signed (s : Bool) (m k : Nat) : (F64.signed s m k).natAbs = m * 2 ^ k := by
  unfold F64.signed
  cases s
  · simp only [Bool.false_eq_true, if_false]
    exact Int.natAbs_ofNat _
  · simp only [if_true, Int.natAbs_neg]
    exact Int.natAbs_ofNat _

/-- The sum of finite numbers of magnitude at most `2 ^ K` is finite, of magnitude at most
`2 ^ (K + 1)`, when `K + 1 ≤ 1023`. -/
theorem add_bounded (x y : F64) (K : Nat) (hx : F64.bounded K x = true)
    (hy : F64.bounded K y = true) (hK : K + 1 ≤ 1023) :
    ∃ s m e, x + y = F64.fin s m e ∧ F64.bounded (K + 1) (F64.fin s m e) = true := by
  cases x with
  | nan => simp [F64.bounded] at hx
  | inf s => simp [F64.bounded] at hx
  | fin s₁ m₁ e₁ =>
    cases y with
    | nan => simp [F64.bounded] at hy
    | inf s => simp [F64.bounded] at hy
    | fin s₂ m₂ e₂ =>
      simp only [F64.bounded, decide_eq_true_eq] at hx hy
      show ∃ s m e, F64.add _ _ = F64.fin s m e ∧ _
      simp only [F64.add]
      split_ifs with hzero
      · exact ⟨_, 0, 0, rfl, by simp [F64.bounded]⟩
      · have habs : (F64.signed s₁ m₁ (e₁ - min e₁ e₂).toNat
              + F64.signed s₂ m₂ (e₂ - min e₁ e₂).toNat).natAbs
            ≤ m₁ * 2 ^ (e₁ - min e₁ e₂).toNat + m₂ * 2 ^ (e₂ - min e₁ e₂).toNat := by
          have := Int.natAbs_add_le (F64.signed s₁ m₁ (e₁ - min e₁ e₂).toNat)
            (F64.signed s₂ m₂ (e₂ - min e₁ e₂).toNat)
          rw [natAbs_signed, natAbs_signed] at this
          exact this
        have hx' := (bounded_shift m₁ e₁ K (-(min e₁ e₂)).toNat (by omega)).mp hx
        have hy' := (bounded_shift m₂ e₂ K (-(min e₁ e₂)).toNat (by omega)).mp hy
        have hsum : (F64.signed s₁ m₁ (e₁ - min e₁ e₂).toNat
              + F64.signed s₂ m₂ (e₂ - min e₁ e₂).toNat).natAbs * 2 ^ (min e₁ e₂).toNat
            ≤ 2 ^ (K + 1) * 2 ^ (-(min e₁ e₂)).toNat := by
          have h1 : (e₁ - min e₁ e₂).toNat + (min e₁ e₂).toNat
              = (e₁ + (((-(min e₁ e₂)).toNat : Nat) : Int)).toNat := by omega
          have h2 : (e₂ - min e₁ e₂).toNat + (min e₁ e₂).toNat
              = (e₂ + (((-(min e₁ e₂)).toNat : Nat) : Int)).toNat := by omega
          calc _ ≤ (m₁ * 2 ^ (e₁ - min e₁ e₂).toNat + m₂ * 2 ^ (e₂ - min e₁ e₂).toNat)
                  * 2 ^ (min e₁ e₂).toNat := Nat.mul_le_mul_right _ habs
            _ = m₁ * 2 ^ (e₁ + (((-(min e₁ e₂)).toNat : Nat) : Int)).toNat
                  + m₂ * 2 ^ (e₂ + (((-(min e₁ e₂)).toNat : Nat) : Int)).toNat := by
                rw [Nat.add_mul, Nat.mul_assoc, Nat.mul_assoc, ← Nat.pow_add, ← Nat.pow_add,
                  h1, h2]
            _ ≤ 2 ^ (K + (-(min e₁ e₂)).toNat) + 2 ^ (K + (-(min e₁ e₂)).toNat) :=
                Nat.add_le_add hx' hy'
            _ = 2 ^ (K + 1) * 2 ^ (-(min e₁ e₂)).toNat := by
                rw [Nat.pow_add, Nat.pow_add]
                ring
        obtain ⟨m', e', hr, hb⟩ := roundDyadic_bounded
          (decide (F64.signed s₁ m₁ (e₁ - min e₁ e₂).toNat
            + F64.signed s₂ m₂ (e₂ - min e₁ e₂).toNat < 0)) _ _ _ hsum hK
        exact ⟨_, m', e', hr, hb⟩

theorem neg_bounded (K : Nat) (v : F64) (h : F64.bounded K v = true) :
    F64.bounded K (F64.neg v) = true := by
  cases v with
  | nan => simp [F64.bounded] at h
  | inf s => simp [F64.bounded] at h
  | fin s m e => exact h

theorem sub_bounded (x y : F64) (K : Nat) (hx : F64.bounded K x = true)
    (hy : F64.bounded K y = true) (hK : K + 1 ≤ 1023) :
    ∃ s m e, x - y = F64.fin s m e ∧ F64.bounded (K + 1) (F64.fin s m e) = true :=
  add_bounded x (F64.neg y) K hx (neg_bounded K y hy) hK

/-- The bound `1 ≤ m * 2 ^ e`, with every exponent moved up by `N`. -/
theorem one_le_shift (m : Nat) (e : Int) (N : Nat) (h : 0 ≤ e + (N : Int))
    (hone : 2 ^ (-e).toNat ≤ m * 2 ^ e.toNat) : 2 ^ N ≤ m * 2 ^ (e + (N : Int)).toNat := by
  have hexp : e.toNat + N = (e + (N : Int)).toNat + (-e).toNat := by omega
  have hpos : 0 < 2 ^ (-e).toNat := Nat.pow_pos (by norm_num)
  apply Nat.le_of_mul_le_mul_right _ hpos
  calc 2 ^ N * 2 ^ (-e).toNat = 2 ^ (-e).toNat * 2 ^ N := Nat.mul_comm _ _
    _ ≤ m * 2 ^ e.toNat * 2 ^ N := Nat.mul_le_mul_right _ hone
    _ = m * 2 ^ (e + (N : Int)).toNat * 2 ^ (-e).toNat := by
        rw [Nat.mul_assoc, Nat.mul_assoc, ← Nat.pow_add, ← Nat.pow_add, hexp]

/-- The quotient of a finite number of magnitude at most `2 ^ K`, `K ≤ 1023`, by a finite
number of magnitude at least `1` is finite. -/
theorem div_bounded (x : F64) (s₂ : Bool) (m₂ : Nat) (e₂ : Int) (K : Nat)
    (hx : F64.bounded K x = true) (hone : 2 ^ (-e₂).toNat ≤ m₂ * 2 ^ e₂.toNat)
    (hK : K ≤ 1023) :
    ∃ s m e, x / F64.fin s₂ m₂ e₂ = F64.fin s m e := by
  cases x with
  | nan => simp [F64.bounded] at hx
  | inf s => simp [F64.bounded] at hx
  | fin s₁ m₁ e₁ =>
    simp only [F64.bounded, decide_eq_true_eq] at hx
    have hm₂ : m₂ ≠ 0 := by
      intro h0
      rw [h0, Nat.zero_mul] at hone
      have : 0 < 2 ^ (-e₂).toNat := Nat.pow_pos (by norm_num)
      omega
    show ∃ s m e, F64.div _ _ = F64.fin s m e
    simp only [F64.div, if_neg hm₂]
    have hx' := (bounded_shift m₁ e₁ K (-(min e₁ e₂)).toNat (by omega)).mp hx
    have hc' := one_le_shift m₂ e₂ (-(min e₁ e₂)).toNat (by omega) hone
    have h1 : (e₁ - min e₁ e₂).toNat + (min e₁ e₂).toNat
        = (e₁ + (((-(min e₁ e₂)).toNat : Nat) : Int)).toNat := by omega
    have h2 : (e₂ - min e₁ e₂).toNat + (min e₁ e₂).toNat
        = (e₂ + (((-(min e₁ e₂)).toNat : Nat) : Int)).toNat := by omega
    have hle : m₁ * 2 ^ (e₁ - min e₁ e₂).toNat
        ≤ m₂ * 2 ^ (e₂ - min e₁ e₂).toNat * 2 ^ K := by
      apply Nat.le_of_mul_le_mul_right _
        (Nat.pow_pos (by norm_num) : 0 < 2 ^ (min e₁ e₂).toNat)
      calc m₁ * 2 ^ (e₁ - min e₁ e₂).toNat * 2 ^ (min e₁ e₂).toNat
          = m₁ * 2 ^ (e₁ + (((-(min e₁ e₂)).toNat : Nat) : Int)).toNat := by
            rw [Nat.mul_assoc, ← Nat.pow_add, h1]
        _ ≤ 2 ^ (K + (-(min e₁ e₂)).toNat) := hx'
        _ = 2 ^ K * 2 ^ (-(min e₁ e₂)).toNat := Nat.pow_add _ _ _
        _ ≤ 2 ^ K * (m₂ * 2 ^ (e₂ + (((-(min e₁ e₂)).toNat : Nat) : Int)).toNat) :=
            Nat.mul_le_mul_left _ hc'
        _ = m₂ * 2 ^ (e₂ - min e₁ e₂).toNat * 2 ^ K * 2 ^ (min e₁ e₂).toNat := by
            rw [← h2, Nat.pow_add]
            ring
    obtain ⟨m', e', hr, _⟩ := roundRat_bounded (xor s₁ s₂) _ _ K
      (Nat.mul_pos (Nat.pos_of_ne_zero hm₂) (Nat.pow_pos (by norm_num))) hle hK
    exact ⟨_, m', e', hr⟩

/-! ## `calculateDistance` is never negative -/

theorem nonNeg_of_round_cases (v : F64)
    (h : v = F64.inf false ∨ ∃ m e, v = F64.fin false m e ∧ (m = 0 → e = 0)) :
    F64.nonNeg v = true := by
  rcases h with h | ⟨m, e, h, _⟩ <;> rw [h] <;> rfl

theorem mul_self_nonNeg (x : F64) (hx : x ≠ F64.nan) : F64.nonNeg (x * x) = true := by
  show F64.nonNeg (F64.mul x x) = true
  cases x with
  | nan => exact absurd rfl hx
  | inf s => cases s <;> rfl
  | fin s m e =>
    simp only [F64.mul]
    have hs : xor s s = false := by cases s <;> rfl
    rw [hs]
    exact nonNeg_of_round_cases _ (roundDyadic_cases false _ _)

theorem signed_false_nonneg (m k : Nat) : 0 ≤ F64.signed false m k := by
  unfold F64.signed
  simp only [Bool.false_eq_true, if_false]
  exact Int.ofNat_nonneg _

theorem add_nonNeg (a b : F64) (ha : F64.nonNeg a = true) (hb : F64.nonNeg b = true) :
    F64.nonNeg (a + b) = true := by
  show F64.nonNeg (F64.add a b) = true
  cases a with
  | nan => simp [F64.nonNeg] at ha
  | inf s =>
    simp only [F64.nonNeg, Bool.not_eq_true'] at ha
    subst ha
    cases b with
    | nan => simp [F64.nonNeg] at hb
    | inf t =>
      simp only [F64.nonNeg, Bool.not_eq_true'] at hb
      subst hb
      rfl
    | fin t m e => rfl
  | fin s m e =>
    simp only [F64.nonNeg, Bool.not_eq_true'] at ha
    subst ha
    cases b with
    | nan => simp [F64.nonNeg] at hb
    | inf t =>
      simp only [F64.nonNeg, Bool.not_eq_true'] at hb
      subst hb
      rfl
    | fin t m' e' =>
      simp only [F64.nonNeg, Bool.not_eq_true'] at hb
      subst hb
      simp only [F64.add]
      split_ifs with hzero
      · rfl
      · have h1 := signed_false_nonneg m (e - min e e').toNat
        have h2 := signed_false_nonneg m' (e' - min e e').toNat
        have hneg : decide (F64.signed false m (e - min e e').toNat
            + F64.signed false m' (e' - min e e').toNat < 0) = false := by
          rw [decide_eq_false_iff_not]
          omega
        rw [hneg]
        exact nonNeg_of_round_cases _ (roundDyadic_cases false _ _)

theorem Sqrt_nonNeg (a : F64) (ha : F64.nonNeg a = true) : F64.nonNeg (math.Sqrt a) = true := by
  cases a with
  | nan => simp [F64.nonNeg] at ha
  | inf s =>
    simp only [F64.nonNeg, Bool.not_eq_true'] at ha
    subst ha
    rfl
  | fin s m e =>
    simp only [F64.nonNeg, Bool.not_eq_true'] at ha
    subst ha
    unfold math.Sqrt
    simp only []
    split_ifs <;>
      first
      | rfl
      | exact nonNeg_of_round_cases _ (roundDyadic_cases false _ _)
      | contradiction

theorem const_mul_nonNeg (m : Nat) (e : Int) (a : F64) (hm : m ≠ 0)
    (ha : F64.nonNeg a = true) : F64.nonNeg (F64.fin false m e * a) = true := by
  show F64.nonNeg (F64.mul _ a) = true
  cases a with
  | nan => simp [F64.nonNeg] at ha
  | inf s =>
    simp only [F64.nonNeg, Bool.not_eq_true'] at ha
    subst ha
    simp only [F64.mul, if_neg hm]
    rfl
  | fin s m' e' =>
    simp only [F64.nonNeg, Bool.not_eq_true'] at ha
    subst ha
    simp only [F64.mul]
    exact nonNeg_of_round_cases _ (roundDyadic_cases false _ _)

theorem mul_const_nonNeg (m : Nat) (e : Int) (a : F64) (hm : m ≠ 0)
    (ha : F64.nonNeg a = true) : F64.nonNeg (a * F64.fin false m e) = true := by
  show F64.nonNeg (F64.mul a _) = true
  cases a with
  | nan => simp [F64.nonNeg] at ha
  | inf s =>
    simp only [F64.nonNeg, Bool.not_eq_true'] at ha
    subst ha
    simp only [F64.mul, if_neg hm]
    rfl
  | fin s m' e' =>
    simp only [F64.nonNeg, Bool.not_eq_true'] at ha
    subst ha
    simp only [F64.mul]
    exact nonNeg_of_round_cases _ (roundDyadic_cases false _ _)

theorem Round_nonNeg (a : F64) (ha : F64.nonNeg a = true) :
    F64.nonNeg (math.Round a) = true := by
  cases a with
  | nan => simp [F64.nonNeg] at ha
  | inf s =>
    simp only [F64.nonNeg, Bool.not_eq_true'] at ha
    subst ha
    rfl
  | fin s m e =>
    simp only [F64.nonNeg, Bool.not_eq_true'] at ha
    subst ha
    unfold math.Round
    exact nonNeg_of_round_cases _ (roundRat_cases false _ _)

theorem div_const_isDistance (m : Nat) (e : Int) (a : F64) (hm : m ≠ 0)
    (ha : F64.nonNeg a = true) : F64.IsDistance (a / F64.fin false m e) := by
  show F64.IsDistance (F64.div a _)
  cases a with
  | nan => simp [F64.nonNeg] at ha
  | inf s =>
    simp only [F64.nonNeg, Bool.not_eq_true'] at ha
    subst ha
    exact Or.inl rfl
  | fin s m' e' =>
    simp only [F64.nonNeg, Bool.not_eq_true'] at ha
    subst ha
    simp only [F64.div, if_neg hm]
    exact roundRat_cases false _ _

theorem fin_mul_fin_ne_nan (s₁ : Bool) (m₁ : Nat) (e₁ : Int) (s₂ : Bool) (m₂ : Nat)
    (e₂ : Int) : F64.fin s₁ m₁ e₁ * F64.fin s₂ m₂ e₂ ≠ F64.nan := by
  show F64.mul _ _ ≠ _
  simp only [F64.mul]
  rcases roundDyadic_cases (xor s₁ s₂) (m₁ * m₂) (e₁ + e₂) with h | ⟨m, e, h, _⟩ <;>
    rw [h] <;> exact fun h => F64.noConfusion h

theorem ten_eq : (10 : F64) = F64.fin false 5629499534213120 (-49) := by decide!

theorem threeSixty_eq : (360 : F64) = F64.fin false 6333186975989760 (-44) := by decide!

theorem zero_eq : (0 : F64) = F64.fin false 0 0 := by decide!

theorem degreeLength_eq :
    math.Pi * EarthRadius / 180 = F64.fin false 7824647346905068 (-46) := by decide!

theorem TokyoStationX_bounded : F64.bounded 1000 TokyoStationX = true := by decide!

theorem TokyoStationY_bounded : F64.bounded 1000 TokyoStationY = true := by decide!

theorem Pi_bounded : F64.bounded 2 math.Pi = true := by decide!

/-- The argument of `Cos` in `calculateDistance` is finite when `y` is finite with magnitude
at most `2 ^ 1000`. -/
theorem cosArgument_finite (y : F64) (hy : F64.bounded 1000 y = true) :
    ∃ s m e, math.Pi * (y + TokyoStationY) / 360 = F64.fin s m e := by
  obtain ⟨s₁, m₁, e₁, h₁, hb₁⟩ :=
    add_bounded y TokyoStationY 1000 hy TokyoStationY_bounded (by norm_num)
  obtain ⟨s₂, m₂, e₂, h₂, hb₂⟩ :=
    mul_bounded math.Pi (F64.fin s₁ m₁ e₁) 2 1001 Pi_bounded hb₁ (by norm_num)
  rw [h₁, h₂, threeSixty_eq]
  exact div_bounded _ false _ _ (2 + 1001) hb₂ (by decide) (by norm_num)

/-- For finite coordinates of magnitude at most `2 ^ 1000`, `calculateDistance` returns `+0`,
a positive number or `+Inf`; never a NaN and never a negative number. -/
theorem calculateDistance_isDistance (Cos : F64 → F64) (hCos : math.CosSpec Cos) (x y : F64)
    (hx : F64.bounded 1000 x = true) (hy : F64.bounded 1000 y = true) :
    F64.IsDistance (calculateDistance Cos x y) := by
  obtain ⟨sa, ma, ea, harg⟩ := cosArgument_finite y hy
  obtain ⟨sc, mc, ec, hcos⟩ := hCos sa ma ea
  obtain ⟨sx, mx, ex, hdx, _⟩ :=
    sub_bounded x TokyoStationX 1000 hx TokyoStationX_bounded (by norm_num)
  obtain ⟨sy, my, ey, hdy, _⟩ :=
    sub_bounded y TokyoStationY 1000 hy TokyoStationY_bounded (by norm_num)
  unfold calculateDistance
  simp only []
  rw [harg, hcos, hdx, hdy, degreeLength_eq, ten_eq]
  apply div_const_isDistance _ _ _ (by norm_num)
  apply Round_nonNeg
  apply mul_const_nonNeg _ _ _ (by norm_num)
  apply const_mul_nonNeg _ _ _ (by norm_num)
  apply Sqrt_nonNeg
  apply add_nonNeg
  · exact mul_self_nonNeg _ (fin_mul_fin_ne_nan _ _ _ _ _ _)
  · exact mul_self_nonNeg _ (fun h => F64.noConfusion h)

/-! ## The order of distances and the maximum loop -/

theorem signed_false (m k : Nat) : F64.signed false m k = ((m * 2 ^ k : Nat) : Int) := by
  unfold F64.signed
  simp

theorem aligned_shift (m : Nat) (e e₀ : Int) (N : Nat) (h₀ : e₀ ≤ e) (hN : 0 ≤ e₀ + (N : Int)) :
    m * 2 ^ (e - e₀).toNat * 2 ^ (e₀ + (N : Int)).toNat = m * 2 ^ (e + (N : Int)).toNat := by
  rw [Nat.mul_assoc, ← Nat.pow_add]
  congr 2
  omega

theorem le_fin_iff (m₁ : Nat) (e₁ : Int) (m₂ : Nat) (e₂ : Int) (N : Nat)
    (h₁ : 0 ≤ e₁ + (N : Int)) (h₂ : 0 ≤ e₂ + (N : Int)) :
    F64.le (F64.fin false m₁ e₁) (F64.fin false m₂ e₂) = true ↔
      m₁ * 2 ^ (e₁ + (N : Int)).toNat ≤ m₂ * 2 ^ (e₂ + (N : Int)).toNat := by
  simp only [F64.le, decide_eq_true_eq, signed_false, Int.ofNat_le]
  rw [← aligned_shift m₁ e₁ (min e₁ e₂) N (min_le_left _ _) (by omega),
    ← aligned_shift m₂ e₂ (min e₁ e₂) N (min_le_right _ _) (by omega)]
  exact ⟨fun h => Nat.mul_le_mul_right _ h,
    fun h => Nat.le_of_mul_le_mul_right h (Nat.pow_pos (by norm_num))⟩

theorem lt_fin_iff (m₁ : Nat) (e₁ : Int) (m₂ : Nat) (e₂ : Int) (N : Nat)
    (h₁ : 0 ≤ e₁ + (N : Int)) (h₂ : 0 ≤ e₂ + (N : Int)) :
    F64.lt (F64.fin false m₁ e₁) (F64.fin false m₂ e₂) = true ↔
      m₁ * 2 ^ (e₁ + (N : Int)).toNat < m₂ * 2 ^ (e₂ + (N : Int)).toNat := by
  simp only [F64.lt, decide_eq_true_eq, signed_false, Int.ofNat_lt]
  rw [← aligned_shift m₁ e₁ (min e₁ e₂) N (min_le_left _ _) (by omega),
    ← aligned_shift m₂ e₂ (min e₁ e₂) N (min_le_right _ _) (by omega)]
  exact (Nat.mul_lt_mul_right (Nat.pow_pos (by norm_num))).symm

theorem isDistance_cases (v : F64) (h : F64.IsDistance v) :
    v = F64.inf false ∨ ∃ m e, v = F64.fin false m e := by
  rcases h with h | ⟨m, e, h, _⟩
  · exact Or.inl h
  · exact Or.inr ⟨m, e, h⟩

theorem le_refl_of_isDistance (v : F64) (h : F64.IsDistance v) : F64.le v v = true := by
  rcases isDistance_cases v h with rfl | ⟨m, e, rfl⟩
  · rfl
  · exact (le_fin_iff m e m e (-e).toNat (by omega) (by omega)).mpr (Nat.le_refl _)

theorem le_trans_of_isDistance (a b c : F64) (ha : F64.IsDistance a) (hb : F64.IsDistance b)
    (hc : F64.IsDistance c) (hab : F64.le a b = true) (hbc : F64.le b c = true) :
    F64.le a c = true := by
  rcases isDistance_cases a ha with rfl | ⟨m₁, e₁, rfl⟩ <;>
    rcases isDistance_cases b hb with rfl | ⟨m₂, e₂, rfl⟩ <;>
    rcases isDistance_cases c hc with rfl | ⟨m₃, e₃, rfl⟩ <;>
    first
    | rfl
    | (simp [F64.le] at hab; done)
    | (simp [F64.le] at hbc; done)
    | skip
  have hN₁ : 0 ≤ e₁ + (((-e₁).toNat + (-e₂).toNat + (-e₃).toNat : Nat) : Int) := by omega
  have hN₂ : 0 ≤ e₂ + (((-e₁).toNat + (-e₂).toNat + (-e₃).toNat : Nat) : Int) := by omega
  have hN₃ : 0 ≤ e₃ + (((-e₁).toNat + (-e₂).toNat + (-e₃).toNat : Nat) : Int) := by omega
  rw [le_fin_iff _ _ _ _ _ hN₁ hN₂] at hab
  rw [le_fin_iff _ _ _ _ _ hN₂ hN₃] at hbc
  rw [le_fin_iff _ _ _ _ _ hN₁ hN₃]
  exact Nat.le_trans hab hbc

/-- When `d > m` is false for distances, `d <= m` holds. -/
theorem le_of_not_gt (d m : F64) (hd : F64.IsDistance d) (hm : F64.IsDistance m)
    (h : F64.gt d m = false) : F64.le d m = true := by
  unfold F64.gt at h
  rcases isDistance_cases d hd with rfl | ⟨m₁, e₁, rfl⟩ <;>
    rcases isDistance_cases m hm with rfl | ⟨m₂, e₂, rfl⟩ <;>
    first
    | rfl
    | (simp [F64.lt] at h; done)
    | skip
  have hN₁ : 0 ≤ e₁ + (((-e₁).toNat + (-e₂).toNat : Nat) : Int) := by omega
  have hN₂ : 0 ≤ e₂ + (((-e₁).toNat + (-e₂).toNat : Nat) : Int) := by omega
  rw [le_fin_iff _ _ _ _ _ hN₁ hN₂]
  have hlt := lt_fin_iff m₂ e₂ m₁ e₁ _ hN₂ hN₁
  rw [h] at hlt
  have : ¬ m₂ * 2 ^ (e₂ + (((-e₁).toNat + (-e₂).toNat : Nat) : Int)).toNat
      < m₁ * 2 ^ (e₁ + (((-e₁).toNat + (-e₂).toNat : Nat) : Int)).toNat :=
    fun hc => by simpa using hlt.mpr hc
  omega

/-- When `d > m` holds for distances, `m <= d` holds. -/
theorem le_of_gt (d m : F64) (hd : F64.IsDistance d) (hm : F64.IsDistance m)
    (h : F64.gt d m = true) : F64.le m d = true := by
  unfold F64.gt at h
  rcases isDistance_cases d hd with rfl | ⟨m₁, e₁, rfl⟩ <;>
    rcases isDistance_cases m hm with rfl | ⟨m₂, e₂, rfl⟩ <;>
    first
    | rfl
    | (simp [F64.lt] at h; done)
    | skip
  have hN₁ : 0 ≤ e₁ + (((-e₁).toNat + (-e₂).toNat : Nat) : Int) := by omega
  have hN₂ : 0 ≤ e₂ + (((-e₁).toNat + (-e₂).toNat : Nat) : Int) := by omega
  rw [le_fin_iff _ _ _ _ _ hN₂ hN₁]
  have hlt := (lt_fin_iff m₂ e₂ m₁ e₁ _ hN₂ hN₁).mp h
  omega

/-- A distance that is at most `+0` is `+0`. -/
theorem eq_zero_of_le_zero (d : F64) (hd : F64.IsDistance d)
    (h : F64.le d (F64.fin false 0 0) = true) : d = F64.fin false 0 0 := by
  rcases hd with rfl | ⟨m, e, rfl, hcanon⟩
  · simp [F64.le] at h
  · rw [le_fin_iff m e 0 0 (-e).toNat (by omega) (by omega)] at h
    have hm : m = 0 := by
      rcases Nat.eq_zero_or_pos m with h0 | hpos
      · exact h0
      · have : 0 < m * 2 ^ (e + (((-e).toNat : Nat) : Int)).toNat :=
          Nat.mul_pos hpos (Nat.pow_pos (by norm_num))
        omega
    subst hm
    rw [hcanon rfl]

theorem zero_le_of_isDistance (d : F64) (hd : F64.IsDistance d) :
    F64.le (F64.fin false 0 0) d = true := by
  rcases isDistance_cases d hd with rfl | ⟨m, e, rfl⟩
  · rfl
  · rw [le_fin_iff 0 0 m e (-e).toNat (by omega) (by omega)]
    simp

/-! ## Records with coordinates that do not parse -/

theorem decimalResult_spec (neg : Bool) (ip fp : List Char) :
    ((strconv.decimalResult neg ip fp).2 = some strconv.NumError.ErrSyntax →
      (strconv.decimalResult neg ip fp).1 = 0) ∧
    ((strconv.decimalResult neg ip fp).2 = some strconv.NumError.ErrRange →
      ∃ s, (strconv.decimalResult neg ip fp).1 = F64.inf s) := by
  unfold strconv.decimalResult
  split
  · split_ifs
    · exact ⟨fun _ => rfl, fun h => by simp at h⟩
    · split
      · exact ⟨fun h => by simp at h, fun _ => ⟨_, rfl⟩⟩
      · exact ⟨fun h => by simp at h, fun h => by simp at h⟩
  · exact ⟨fun _ => rfl, fun h => by simp at h⟩

theorem decimalMagnitude_spec (neg : Bool) (cs : List Char) :
    ((strconv.decimalMagnitude neg cs).2 = some strconv.NumError.ErrSyntax →
      (strconv.decimalMagnitude neg cs).1 = 0) ∧
    ((strconv.decimalMagnitude neg cs).2 = some strconv.NumError.ErrRange →
      ∃ s, (strconv.decimalMagnitude neg cs).1 = F64.inf s) := by
  unfold strconv.decimalMagnitude
  split <;> exact decimalResult_spec _ _ _

theorem decimalParseFloat_spec : strconv.ParseFloatSpec strconv.decimalParseFloat := by
  intro s
  unfold strconv.decimalParseFloat
  split <;> exact decimalMagnitude_spec _ _

/-- The distance of a point on the meridian of Tokyo Station with latitude `0`. -/
theorem calculateDistance_station_meridian (Cos : F64 → F64) (hCos : math.CosSpec Cos) :
    calculateDistance Cos TokyoStationX 0 = F64.ofRat 39675 10 := by
  have harg : math.Pi * ((0 : F64) + TokyoStationY) / 360
      = F64.fin false 5609235286528949 (-54) := by decide!
  have hx : TokyoStationX - TokyoStationX = F64.fin false 0 0 := by decide!
  unfold calculateDistance
  simp only []
  rw [harg, hx]
  obtain ⟨s', m', e', hc⟩ := hCos false 5609235286528949 (-54)
  rw [hc, mul_zero_fin]
  cases s' <;> decide!

/-- Counterexample to C3 as stated.  The latitude text "abc" of `recordWithoutLatitude` has a
syntax error, its longitude text parses to the longitude of Tokyo Station.  For every `Cos`
and every `ParseFloat` with these two results the handler computes for the record the distance
`3967.5`, not `0`, and the maximum over the record alone is raised from `0` to `3967.5`. -/
theorem unparseable_latitude_counterexample :
    strconv.decimalParseFloat "139.7673068" = (TokyoStationX, none) ∧
    strconv.decimalParseFloat "abc" = (0, some strconv.NumError.ErrSyntax) ∧
    math.CosSpec constantCos ∧
    (∀ (Cos : F64 → F64) (ParseFloat : strconv.ParseFloatFn), math.CosSpec Cos →
      ParseFloat "139.7673068" = (TokyoStationX, none) →
      ParseFloat "abc" = (0, some strconv.NumError.ErrSyntax) →
      recordDistance Cos ParseFloat recordWithoutLatitude = F64.ofRat 39675 10 ∧
      maxDistanceLoop Cos ParseFloat [recordWithoutLatitude] 0 = F64.ofRat 39675 10) ∧
    F64.ofRat 39675 10 ≠ 0 ∧
    F64.gt (F64.ofRat 39675 10) 0 = true := by
  refine ⟨by decide!, by decide!, constantCos_spec, ?_, by decide!, by decide!⟩
  intro Cos ParseFloat hCos hX hY
  have hd : recordDistance Cos ParseFloat recordWithoutLatitude = F64.ofRat 39675 10 := by
    unfold recordDistance recordWithoutLatitude
    simp only []
    rw [hX, hY]
    exact calculateDistance_station_meridian Cos hCos
  refine ⟨hd, ?_⟩
  unfold maxDistanceLoop
  simp only []
  rw [hd]
  have hgt : F64.gt (F64.ofRat 39675 10) 0 = true := by decide!
  rw [if_pos hgt]
  rfl

/-! ## Further properties -/

/-- The rounding step `math.Round(distance*10) / 10` of `calculateDistance` maps the raw
distance 12.34 to 12.3 and 12.35 to 12.4, and `math.Round` rounds halves away from zero:
2.5 to 3 and -2.5 to -3. -/
theorem rounding_step_examples :
    math.Round (F64.ofRat 1234 100 * 10) / 10 = F64.ofRat 123 10 ∧
    math.Round (F64.ofRat 1235 100 * 10) / 10 = F64.ofRat 124 10 ∧
    math.Round (F64.ofRat 5 2) = 3 ∧
    math.Round (F64.neg (F64.ofRat 5 2)) = F64.neg 3 := by
  decide!

/-- For finite coordinates of magnitude at most `2 ^ 1000`, the result of `calculateDistance`
is no NaN and is at least `0`. -/
theorem calculateDistance_never_negative (Cos : F64 → F64) (hCos : math.CosSpec Cos)
    (x y : F64) (hx : F64.bounded 1000 x = true) (hy : F64.bounded 1000 y = true) :
    F64.ge (calculateDistance Cos x y) 0 = true ∧ calculateDistance Cos x y ≠ F64.nan := by
  have hd := calculateDistance_isDistance Cos hCos x y hx hy
  constructor
  · show F64.le 0 _ = true
    rw [zero_eq]
    exact zero_le_of_isDistance _ hd
  · rcases isDistance_cases _ hd with h | ⟨m, e, h⟩ <;> rw [h] <;>
      exact fun h' => F64.noConfusion h'

/-- Witness: the distance of the point `(139.7673068, 0)` with the constant cosine. -/
theorem calculateDistance_never_negative_witness :
    F64.ge (calculateDistance constantCos TokyoStationX 0) 0 = true ∧
      calculateDistance constantCos TokyoStationX 0 ≠ F64.nan :=
  calculateDistance_never_negative constantCos constantCos_spec TokyoStationX 0
    TokyoStationX_bounded (by decide!)

/-- `getCommonAddress` of no records is the empty string. -/
theorem getCommonAddress_nil : getCommonAddress [] = "" :=
  rfl

/-- The common address is a prefix, in whole characters, of prefecture + city + town of every
record (the empty string when the records differ in prefecture or city). -/
theorem getCommonAddress_shared (locations : List Location) (l : Location)
    (hl : l ∈ locations) :
    (getCommonAddress locations).data <+: (l.Prefecture ++ l.City ++ l.Town).data := by
  cases locations with
  | nil => exact absurd hl (List.not_mem_nil _)
  | cons first rest =>
    by_cases hall : ∀ l ∈ first :: rest,
        l.Prefecture = first.Prefecture ∧ l.City = first.City
    · rw [getCommonAddress_same first rest hall, (hall l hl).1, (hall l hl).2]
      simp only [String.data_append]
      apply (List.prefix_append_right_inj _).mpr
      exact ((prefix_lcpTowns_iff _ _ _).mp (List.prefix_refl _)).2 l hl
    · simp only [not_forall] at hall
      obtain ⟨l', hl', hd⟩ := hall
      have hd' : l'.Prefecture ≠ first.Prefecture ∨ l'.City ≠ first.City := by
        by_contra hc
        simp only [not_or, not_not] at hc
        exact hd hc
      rw [getCommonAddress_differ first rest ⟨l', hl', hd'⟩]
      exact List.nil_prefix

/-- Witness: the Marunouchi address is shared by the record of Marunouchi2. -/
theorem getCommonAddress_shared_witness :
    (getCommonAddress marunouchi).data <+:
      ("Tokyo" ++ "Chiyoda" ++ "Marunouchi2" : String).data :=
  getCommonAddress_shared marunouchi (mkLocation "Tokyo" "Chiyoda" "Marunouchi2") (by decide)

/-- A request whose method is not GET is answered with 405; no collaborator is called and
the store is left as it was. -/
theorem addressHandler_method_not_allowed (Cos : F64 → F64) (ParseFloat : strconv.ParseFloatFn)
    (httpGet : String → ProviderResult) (db : DB) (r : Request) (h : r.Method ≠ "GET") :
    (addressHandler Cos ParseFloat httpGet db r).reply = .error "Method not allowed" 405 ∧
    (addressHandler Cos ParseFloat httpGet db r).calls = [] ∧
    (addressHandler Cos ParseFloat httpGet db r).db = db := by
  rw [addressHandler_not_get Cos ParseFloat httpGet db r h]
  exact ⟨rfl, rfl, rfl⟩

/-- Witness: a POST request. -/
theorem addressHandler_method_not_allowed_witness :
    (addressHandler constantCos strconv.decimalParseFloat marunouchiGet workingDB
        ⟨"POST", "1000001"⟩).reply = .error "Method not allowed" 405 ∧
    (addressHandler constantCos strconv.decimalParseFloat marunouchiGet workingDB
        ⟨"POST", "1000001"⟩).calls = [] ∧
    (addressHandler constantCos strconv.decimalParseFloat marunouchiGet workingDB
        ⟨"POST", "1000001"⟩).db = workingDB :=
  addressHandler_method_not_allowed constantCos strconv.decimalParseFloat marunouchiGet
    workingDB ⟨"POST", "1000001"⟩ (by decide)

/-- When the geocoding API cannot be reached, its body cannot be read or cannot be decoded,
a valid GET request is answered with status 500, `saveAccessLog` is not called and the store
is left as it was. -/
theorem addressHandler_provider_failure (Cos : F64 → F64) (ParseFloat : strconv.ParseFloatFn)
    (httpGet : String → ProviderResult) (db : DB) (r : Request) (hget : r.Method = "GET")
    (hvalid : r.postal_code.data.length = 7 ∧
      ∀ c ∈ r.postal_code.data, c ∈ ['0', '1', '2', '3', '4', '5', '6', '7', '8', '9'])
    (hfail : httpGet ("https://geoapi.heartrails.com/api/json?method=searchByPostal&postal="
        ++ r.postal_code) = .getError ∨
      httpGet ("https://geoapi.heartrails.com/api/json?method=searchByPostal&postal="
        ++ r.postal_code) = .readError ∨
      httpGet ("https://geoapi.heartrails.com/api/json?method=searchByPostal&postal="
        ++ r.postal_code) = .unmarshalError) :
    (addressHandler Cos ParseFloat httpGet db r).reply.status = 500 ∧
    saveAccessLogCalls (addressHandler Cos ParseFloat httpGet db r).calls = 0 ∧
    (addressHandler Cos ParseFloat httpGet db r).db = db := by
  have hm := (validPostalCode_iff r.postal_code).mpr hvalid
  rw [addressHandler_match Cos ParseFloat httpGet db r hget hm]
  rcases hfail with h | h | h <;> rw [h] <;> exact ⟨rfl, rfl, rfl⟩

/-- Witness: the lookup of "1000001" at an unreachable provider. -/
theorem addressHandler_provider_failure_witness :
    (addressHandler constantCos strconv.decimalParseFloat unreachableGet workingDB
        ⟨"GET", "1000001"⟩).reply.status = 500 ∧
    saveAccessLogCalls (addressHandler constantCos strconv.decimalParseFloat unreachableGet
        workingDB ⟨"GET", "1000001"⟩).calls = 0 ∧
    (addressHandler constantCos strconv.decimalParseFloat unreachableGet workingDB
        ⟨"GET", "1000001"⟩).db = workingDB :=
  addressHandler_provider_failure constantCos strconv.decimalParseFloat unreachableGet
    workingDB ⟨"GET", "1000001"⟩ rfl (by decide) (Or.inl rfl)

/-- A successful lookup with a working store adds exactly one row, the postal code, to
`access_logs`; with a failing store the rows stay as they were. -/
theorem addressHandler_appends_one_row (Cos : F64 → F64) (ParseFloat : strconv.ParseFloatFn)
    (httpGet : String → ProviderResult) (rows : List String) (err : String) (r : Request)
    (locations : List Location) (hget : r.Method = "GET")
    (hvalid : r.postal_code.data.length = 7 ∧
      ∀ c ∈ r.postal_code.data, c ∈ ['0', '1', '2', '3', '4', '5', '6', '7', '8', '9'])
    (hok : httpGet ("https://geoapi.heartrails.com/api/json?method=searchByPostal&postal="
      ++ r.postal_code) = .ok locations)
    (hne : locations ≠ []) :
    (addressHandler Cos ParseFloat httpGet ⟨rows, none⟩ r).db.access_logs
        = rows ++ [r.postal_code] ∧
    (addressHandler Cos ParseFloat httpGet ⟨rows, some err⟩ r).db.access_logs = rows := by
  have hm := (validPostalCode_iff r.postal_code).mpr hvalid
  have hlen : locations.length ≠ 0 := fun h => hne (List.length_eq_zero.mp h)
  rw [addressHandler_match Cos ParseFloat httpGet _ r hget hm,
    addressHandler_match Cos ParseFloat httpGet _ r hget hm, hok]
  dsimp only
  rw [if_neg hlen, if_neg hlen]
  exact ⟨rfl, rfl⟩

/-- Witness: the Marunouchi lookup of "1000001" after one earlier row. -/
theorem addressHandler_appends_one_row_witness :
    (addressHandler constantCos strconv.decimalParseFloat marunouchiGet
        ⟨["2000002"], none⟩ ⟨"GET", "1000001"⟩).db.access_logs = ["2000002", "1000001"] :=
  (addressHandler_appends_one_row constantCos strconv.decimalParseFloat marunouchiGet
    ["2000002"] "connection refused" ⟨"GET", "1000001"⟩ marunouchi rfl (by decide) rfl
    (by decide)).1

/-- The town prefix ends at a character boundary: for the towns "丸の内あ" and "丸の内い",
whose last characters share their first two bytes, the common address ends with "丸の内". -/
theorem getCommonAddress_whole_characters :
    (strings.bytes "あ").take 2 = (strings.bytes "い").take 2 ∧
    getCommonAddress marunouchiKana = "東京都千代田区丸の内" := by
  decide

/-! ## Distances for arbitrary coordinates: a NaN or not negative -/

theorem nanOrNonNeg_of_nonNeg (v : F64) (h : F64.nonNeg v = true) :
    F64.nanOrNonNeg v = true := by
  cases v with
  | nan => rfl
  | inf s => exact h
  | fin s m e => exact h

theorem nonNeg_of_nanOrNonNeg (v : F64) (h : F64.nanOrNonNeg v = true) (hv : v ≠ F64.nan) :
    F64.nonNeg v = true := by
  cases v with
  | nan => exact absurd rfl hv
  | inf s => exact h
  | fin s m e => exact h

theorem mul_self_nanOrNonNeg (x : F64) : F64.nanOrNonNeg (x * x) = true := by
  by_cases hx : x = F64.nan
  · subst hx
    rfl
  · exact nanOrNonNeg_of_nonNeg _ (mul_self_nonNeg x hx)

theorem nan_add (b : F64) : F64.nan + b = F64.nan := by
  show F64.add _ _ = _
  simp [F64.add]

theorem add_nan (a : F64) : a + F64.nan = F64.nan := by
  show F64.add _ _ = _
  cases a <;> simp [F64.add]

theorem nan_mul (b : F64) : F64.nan * b = F64.nan := by
  show F64.mul _ _ = _
  simp [F64.mul]

theorem mul_nan (a : F64) : a * F64.nan = F64.nan := by
  show F64.mul _ _ = _
  cases a <;> simp [F64.mul]

theorem nan_div (b : F64) : F64.nan / b = F64.nan := by
  show F64.div _ _ = _
  simp [F64.div]

theorem add_nanOrNonNeg (a b : F64) (ha : F64.nanOrNonNeg a = true)
    (hb : F64.nanOrNonNeg b = true) : F64.nanOrNonNeg (a + b) = true := by
  by_cases hna : a = F64.nan
  · rw [hna, nan_add]
    rfl
  · by_cases hnb : b = F64.nan
    · rw [hnb, add_nan]
      rfl
    · exact nanOrNonNeg_of_nonNeg _
        (add_nonNeg a b (nonNeg_of_nanOrNonNeg a ha hna) (nonNeg_of_nanOrNonNeg b hb hnb))

theorem Sqrt_nanOrNonNeg (a : F64) (ha : F64.nanOrNonNeg a = true) :
    F64.nanOrNonNeg (math.Sqrt a) = true := by
  by_cases hna : a = F64.nan
  · rw [hna]
    rfl
  · exact nanOrNonNeg_of_nonNeg _ (Sqrt_nonNeg a (nonNeg_of_nanOrNonNeg a ha hna))

theorem const_mul_nanOrNonNeg (m : Nat) (e : Int) (a : F64) (hm : m ≠ 0)
    (ha : F64.nanOrNonNeg a = true) : F64.nanOrNonNeg (F64.fin false m e * a) = true := by
  by_cases hna : a = F64.nan
  · rw [hna, mul_nan]
    rfl
  · exact nanOrNonNeg_of_nonNeg _
      (const_mul_nonNeg m e a hm (nonNeg_of_nanOrNonNeg a ha hna))

theorem mul_const_nanOrNonNeg (m : Nat) (e : Int) (a : F64) (hm : m ≠ 0)
    (ha : F64.nanOrNonNeg a = true) : F64.nanOrNonNeg (a * F64.fin false m e) = true := by
  by_cases hna : a = F64.nan
  · rw [hna, nan_mul]
    rfl
  · exact nanOrNonNeg_of_nonNeg _
      (mul_const_nonNeg m e a hm (nonNeg_of_nanOrNonNeg a ha hna))

theorem Round_nanOrNonNeg (a : F64) (ha : F64.nanOrNonNeg a = true) :
    F64.nanOrNonNeg (math.Round a) = true := by
  by_cases hna : a = F64.nan
  · rw [hna]
    rfl
  · exact nanOrNonNeg_of_nonNeg _ (Round_nonNeg a (nonNeg_of_nanOrNonNeg a ha hna))

theorem div_const_nan_or_isDistance (m : Nat) (e : Int) (a : F64) (hm : m ≠ 0)
    (ha : F64.nanOrNonNeg a = true) :
    a / F64.fin false m e = F64.nan ∨ F64.IsDistance (a / F64.fin false m e) := by
  by_cases hna : a = F64.nan
  · rw [hna, nan_div]
    exact Or.inl rfl
  · exact Or.inr (div_const_isDistance m e a hm (nonNeg_of_nanOrNonNeg a ha hna))

/-- For every `Cos` and all coordinates, `calculateDistance` returns a NaN, `+0`, a positive
number or `+Inf`. -/
theorem calculateDistance_nan_or_isDistance (Cos : F64 → F64) (x y : F64) :
    calculateDistance Cos x y = F64.nan ∨ F64.IsDistance (calculateDistance Cos x y) := by
  unfold calculateDistance
  simp only []
  rw [degreeLength_eq, ten_eq]
  apply div_const_nan_or_isDistance _ _ _ (by norm_num)
  apply Round_nanOrNonNeg
  apply mul_const_nanOrNonNeg _ _ _ (by norm_num)
  apply const_mul_nanOrNonNeg _ _ _ (by norm_num)
  apply Sqrt_nanOrNonNeg
  exact add_nanOrNonNeg _ _ (mul_self_nanOrNonNeg _) (mul_self_nanOrNonNeg _)

theorem gt_nan_left (m : F64) : F64.gt F64.nan m = false := by
  unfold F64.gt
  cases m <;> rfl

/-- The loop of `addressHandler` over any records, from a starting value that is no NaN and
not negative: the result is at least the starting value and every record's distance that is
no NaN, and it is the starting value or the distance of a record. -/
theorem maxDistanceLoop_general (Cos : F64 → F64) (ParseFloat : strconv.ParseFloatFn)
    (locations : List Location) (maxDistance : F64) (hmd : F64.IsDistance maxDistance) :
    F64.IsDistance (maxDistanceLoop Cos ParseFloat locations maxDistance) ∧
    F64.le maxDistance (maxDistanceLoop Cos ParseFloat locations maxDistance) = true ∧
    (∀ l ∈ locations, recordDistance Cos ParseFloat l = F64.nan ∨
      F64.le (recordDistance Cos ParseFloat l)
        (maxDistanceLoop Cos ParseFloat locations maxDistance) = true) ∧
    (maxDistanceLoop Cos ParseFloat locations maxDistance = maxDistance ∨
      ∃ l ∈ locations,
        maxDistanceLoop Cos ParseFloat locations maxDistance = recordDistance Cos ParseFloat l) := by
  induction locations generalizing maxDistance with
  | nil =>
    exact ⟨hmd, le_refl_of_isDistance _ hmd, fun l hl => absurd hl (List.not_mem_nil _),
      Or.inl rfl⟩
  | cons loc rest ih =>
    unfold maxDistanceLoop
    simp only []
    by_cases hgt : F64.gt (recordDistance Cos ParseFloat loc) maxDistance = true
    · rw [if_pos hgt]
      have hloc : F64.IsDistance (recordDistance Cos ParseFloat loc) := by
        rcases calculateDistance_nan_or_isDistance Cos (ParseFloat loc.X).1
          (ParseFloat loc.Y).1 with h | h
        · have hnan : recordDistance Cos ParseFloat loc = F64.nan := h
          rw [hnan, gt_nan_left] at hgt
          exact absurd hgt (by decide)
        · exact h
      obtain ⟨hR, hle, hothers, hsome⟩ := ih (recordDistance Cos ParseFloat loc) hloc
      refine ⟨hR, ?_, ?_, ?_⟩
      · exact le_trans_of_isDistance _ _ _ hmd hloc hR (le_of_gt _ _ hloc hmd hgt) hle
      · intro l hl
        rcases List.mem_cons.mp hl with rfl | hl
        · exact Or.inr hle
        · exact hothers l hl
      · right
        rcases hsome with h | ⟨l, hl, h⟩
        · exact ⟨loc, List.mem_cons_self _ _, h⟩
        · exact ⟨l, List.mem_cons_of_mem _ hl, h⟩
    · rw [if_neg hgt]
      have hgt' : F64.gt (recordDistance Cos ParseFloat loc) maxDistance = false := by
        simpa using hgt
      obtain ⟨hR, hle, hothers, hsome⟩ := ih maxDistance hmd
      refine ⟨hR, hle, ?_, ?_⟩
      · intro l hl
        rcases List.mem_cons.mp hl with rfl | hl
        · rcases calculateDistance_nan_or_isDistance Cos (ParseFloat l.X).1
            (ParseFloat l.Y).1 with h | h
          · exact Or.inl h
          · exact Or.inr (le_trans_of_isDistance _ _ _ h hmd hR
              (le_of_not_gt _ _ h hmd hgt') hle)
        · exact hothers l hl
      · rcases hsome with h | ⟨l, hl, h⟩
        · exact Or.inl h
        · exact Or.inr ⟨l, List.mem_cons_of_mem _ hl, h⟩

theorem handlerCoordinate_value (ParseFloat : strconv.ParseFloatFn)
    (hPF : strconv.ParseFloatSpec ParseFloat) (s : String) :
    handlerCoordinate ParseFloat s (ParseFloat s).1 := by
  unfold handlerCoordinate
  split
  · rfl
  · next h => exact (hPF s).1 h
  · next h =>
    obtain ⟨neg, hneg⟩ := (hPF s).2 h
    rw [hneg]
    cases neg
    · exact Or.inl rfl
    · exact Or.inr rfl

/-! ## Records outside the range of the distance computation -/

theorem specialCasesCos_spec : math.CosSpec specialCasesCos :=
  fun _ _ _ => ⟨false, 4503599627370496, -52, one_eq⟩

/-- The distance of a point whose latitude is `10 ^ 308`: the argument of `Cos` overflows
to `+Inf`, the cosine is a NaN and so is the distance. -/
theorem calculateDistance_huge_latitude (Cos : F64 → F64)
    (hInf : Cos (F64.inf false) = F64.nan) :
    calculateDistance Cos TokyoStationX (F64.ofRat (10 ^ 308) 1) = F64.nan := by
  have harg : math.Pi * (F64.ofRat (10 ^ 308) 1 + TokyoStationY) / 360 = F64.inf false := by
    decide!
  unfold calculateDistance
  simp only []
  rw [harg, hInf, mul_nan, nan_mul, nan_add]
  decide!

/-- Counterexample to C4 as stated.  The latitude text of `recordWithHugeLatitude`, a `1`
followed by 308 zeros, parses without error to the finite number `10 ^ 308`, and its longitude
text parses to the longitude of Tokyo Station.  For every `ParseFloat` with these two results
and every `Cos` with `Cos(+Inf) = NaN`, the distance of the record is a NaN, the maximum loop
over the record alone ends with `0`, and the response carries the distance `0`: the maximum
is not at least the record's distance and is not the distance of any record. -/
theorem huge_latitude_counterexample :
    strconv.decimalParseFloat "139.7673068" = (TokyoStationX, none) ∧
    strconv.decimalParseFloat hugeLatitudeText = (F64.ofRat (10 ^ 308) 1, none) ∧
    F64.ofRat (10 ^ 308) 1 = F64.fin false 5010420900022432 971 ∧
    (math.CosSpec specialCasesCos ∧ specialCasesCos (F64.inf false) = F64.nan) ∧
    (∀ (Cos : F64 → F64) (ParseFloat : strconv.ParseFloatFn),
      Cos (F64.inf false) = F64.nan →
      ParseFloat "139.7673068" = (TokyoStationX, none) →
      ParseFloat hugeLatitudeText = (F64.ofRat (10 ^ 308) 1, none) →
      recordDistance Cos ParseFloat recordWithHugeLatitude = F64.nan ∧
      maxDistanceLoop Cos ParseFloat [recordWithHugeLatitude] 0 = 0 ∧
      F64.ge (maxDistanceLoop Cos ParseFloat [recordWithHugeLatitude] 0)
        (recordDistance Cos ParseFloat recordWithHugeLatitude) = false ∧
      (∀ l ∈ [recordWithHugeLatitude],
        maxDistanceLoop Cos ParseFloat [recordWithHugeLatitude] 0
          ≠ recordDistance Cos ParseFloat l) ∧
      (addressHandler Cos ParseFloat hugeLatitudeGet workingDB ⟨"GET", "1000005"⟩).reply
        = .json { PostalCode := "1000005", HitCount := 1,
                  Address := "TokyoChiyodaMarunouchi", TokyoStaDistance := 0 }) := by
  refine ⟨by decide!, by decide!, by decide!, ⟨specialCasesCos_spec, rfl⟩, ?_⟩
  intro Cos ParseFloat hInf hX hY
  have hd : recordDistance Cos ParseFloat recordWithHugeLatitude = F64.nan := by
    unfold recordDistance recordWithHugeLatitude
    simp only []
    rw [hX, hY]
    exact calculateDistance_huge_latitude Cos hInf
  have hmax : maxDistanceLoop Cos ParseFloat [recordWithHugeLatitude] 0 = 0 := by
    unfold maxDistanceLoop
    simp only []
    rw [hd, gt_nan_left]
    rfl
  refine ⟨hd, hmax, ?_, ?_, ?_⟩
  · rw [hmax, hd]
    decide!
  · intro l hl
    rw [List.mem_singleton] at hl
    subst hl
    rw [hmax, hd, zero_eq]
    exact fun h => F64.noConfusion h
  · have hm : regexp.MatchString postalCodePattern "1000005" = true := by decide
    rw [addressHandler_match Cos ParseFloat hugeLatitudeGet workingDB ⟨"GET", "1000005"⟩ rfl hm]
    show Reply.json _ = Reply.json _
    rw [hmax]
    have haddr : getCommonAddress [recordWithHugeLatitude] = "TokyoChiyodaMarunouchi" := by
      decide
    rw [haddr]
    rfl

/-- C4, amended.  For a valid lookup whose provider answer is a non-empty list of records, the
reply is the JSON response.  Its `tokyo_sta_distance` is at least `0`, the starting value of
the loop, and at least every record's distance that is no NaN, and it is `0` or the distance
of some record; every record's distance is a NaN or at least `0`.  When no record's distance
is a NaN, `tokyo_sta_distance` is the maximum of `calculateDistance` over the records: it is
at least every record's distance and it is the distance of some record, and every distance
is at least `0`.  No record's distance is a NaN when `Cos` is finite on finite arguments and
every coordinate parses without error to a finite value of magnitude at most `2 ^ 1000`. -/
theorem addressHandler_maxDistance_is_maximum (Cos : F64 → F64)
    (ParseFloat : strconv.ParseFloatFn) (httpGet : String → ProviderResult) (db : DB)
    (r : Request) (locations : List Location)
    (hget : r.Method = "GET")
    (hvalid : r.postal_code.data.length = 7 ∧
      ∀ c ∈ r.postal_code.data, c ∈ ['0', '1', '2', '3', '4', '5', '6', '7', '8', '9'])
    (hok : httpGet ("https://geoapi.heartrails.com/api/json?method=searchByPostal&postal="
      ++ r.postal_code) = .ok locations)
    (hne : locations ≠ []) :
    ∃ response, (addressHandler Cos ParseFloat httpGet db r).reply = .json response ∧
      F64.ge response.TokyoStaDistance 0 = true ∧
      (∀ l ∈ locations,
        calculateDistance Cos (ParseFloat l.X).1 (ParseFloat l.Y).1 = F64.nan ∨
        (F64.ge (calculateDistance Cos (ParseFloat l.X).1 (ParseFloat l.Y).1) 0 = true ∧
          F64.ge response.TokyoStaDistance
            (calculateDistance Cos (ParseFloat l.X).1 (ParseFloat l.Y).1) = true)) ∧
      (response.TokyoStaDistance = 0 ∨ ∃ l ∈ locations, response.TokyoStaDistance
        = calculateDistance Cos (ParseFloat l.X).1 (ParseFloat l.Y).1) ∧
      ((∀ l ∈ locations,
          calculateDistance Cos (ParseFloat l.X).1 (ParseFloat l.Y).1 ≠ F64.nan) →
        (∀ l ∈ locations, F64.ge response.TokyoStaDistance
          (calculateDistance Cos (ParseFloat l.X).1 (ParseFloat l.Y).1) = true) ∧
        (∃ l ∈ locations, response.TokyoStaDistance
          = calculateDistance Cos (ParseFloat l.X).1 (ParseFloat l.Y).1) ∧
        (∀ l ∈ locations, F64.ge
          (calculateDistance Cos (ParseFloat l.X).1 (ParseFloat l.Y).1) 0 = true)) ∧
      (math.CosSpec Cos →
        (∀ l ∈ locations, parsesToNumber ParseFloat l.X ∧ parsesToNumber ParseFloat l.Y) →
        ∀ l ∈ locations,
          calculateDistance Cos (ParseFloat l.X).1 (ParseFloat l.Y).1 ≠ F64.nan) := by
  have hm := (validPostalCode_iff r.postal_code).mpr hvalid
  have hlen : locations.length ≠ 0 := fun h => hne (List.length_eq_zero.mp h)
  obtain ⟨_, hle, hothers, hsome⟩ := maxDistanceLoop_general Cos ParseFloat locations
    (F64.fin false 0 0) (Or.inr ⟨0, 0, rfl, fun _ => rfl⟩)
  refine ⟨{ PostalCode := r.postal_code, HitCount := locations.length,
            Address := getCommonAddress locations,
            TokyoStaDistance := maxDistanceLoop Cos ParseFloat locations 0 },
    ?_, ?_, ?_, ?_, ?_, ?_⟩
  · rw [addressHandler_match Cos ParseFloat httpGet db r hget hm, hok]
    dsimp only
    rw [if_neg hlen]
  · show F64.le 0 (maxDistanceLoop Cos ParseFloat locations 0) = true
    rw [zero_eq]
    exact hle
  · intro l hl
    rcases calculateDistance_nan_or_isDistance Cos (ParseFloat l.X).1 (ParseFloat l.Y).1
      with hn | hd
    · exact Or.inl hn
    · rcases hothers l hl with hn | hge
      · exact Or.inl hn
      · refine Or.inr ⟨?_, ?_⟩
        · show F64.le 0 _ = true
          rw [zero_eq]
          exact zero_le_of_isDistance _ hd
        · show F64.le _ (maxDistanceLoop Cos ParseFloat locations 0) = true
          rw [zero_eq]
          exact hge
  · show maxDistanceLoop Cos ParseFloat locations 0 = 0 ∨ _
    rw [zero_eq]
    exact hsome
  · intro hnn
    have hall : ∀ l ∈ locations, F64.IsDistance (recordDistance Cos ParseFloat l) := by
      intro l hl
      rcases calculateDistance_nan_or_isDistance Cos (ParseFloat l.X).1 (ParseFloat l.Y).1
        with hn | hd
      · exact absurd hn (hnn l hl)
      · exact hd
    have hge : ∀ l ∈ locations, F64.le (recordDistance Cos ParseFloat l)
        (maxDistanceLoop Cos ParseFloat locations (F64.fin false 0 0)) = true := by
      intro l hl
      rcases hothers l hl with hn | hge
      · exact absurd hn (hnn l hl)
      · exact hge
    refine ⟨?_, ?_, ?_⟩
    · intro l hl
      show F64.le _ (maxDistanceLoop Cos ParseFloat locations 0) = true
      rw [zero_eq]
      exact hge l hl
    · show ∃ l ∈ locations, maxDistanceLoop Cos ParseFloat locations 0 = _
      rw [zero_eq]
      rcases hsome with h | h
      · cases locations with
        | nil => exact absurd rfl hne
        | cons first rest =>
          refine ⟨first, List.mem_cons_self _ _, ?_⟩
          have hfirst := hge first (List.mem_cons_self _ _)
          rw [h] at hfirst ⊢
          exact (eq_zero_of_le_zero _ (hall first (List.mem_cons_self _ _)) hfirst).symm
      · exact h
    · intro l hl
      show F64.le 0 _ = true
      rw [zero_eq]
      exact zero_le_of_isDistance _ (hall l hl)
  · intro hCos hparse l hl hn
    have hd := calculateDistance_isDistance Cos hCos _ _ (hparse l hl).1.2 (hparse l hl).2.2
    rw [hn] at hd
    rcases hd with h | ⟨m, e, h, _⟩ <;> exact F64.noConfusion h

/-- Witness of C4, amended: the lookup of "1030028" with the two Yaesu records, whose
coordinates parse to finite values; no distance is a NaN and the reply carries the maximum. -/
theorem addressHandler_maxDistance_is_maximum_witness :
    ∃ response, (addressHandler constantCos strconv.decimalParseFloat yaesuGet workingDB
        ⟨"GET", "1030028"⟩).reply = .json response ∧
      (∀ l ∈ yaesu, calculateDistance constantCos (strconv.decimalParseFloat l.X).1
          (strconv.decimalParseFloat l.Y).1 ≠ F64.nan) ∧
      (∀ l ∈ yaesu, F64.ge response.TokyoStaDistance
        (calculateDistance constantCos (strconv.decimalParseFloat l.X).1
          (strconv.decimalParseFloat l.Y).1) = true) ∧
      (∃ l ∈ yaesu, response.TokyoStaDistance
        = calculateDistance constantCos (strconv.decimalParseFloat l.X).1
          (strconv.decimalParseFloat l.Y).1) ∧
      F64.ge response.TokyoStaDistance 0 = true ∧
      (∀ l ∈ yaesu, F64.ge
        (calculateDistance constantCos (strconv.decimalParseFloat l.X).1
          (strconv.decimalParseFloat l.Y).1) 0 = true) := by
  obtain ⟨response, hreply, hzero, _, _, hmax, hfinite⟩ :=
    addressHandler_maxDistance_is_maximum constantCos strconv.decimalParseFloat yaesuGet
      workingDB ⟨"GET", "1030028"⟩ yaesu rfl (by decide) rfl (by decide)
  have hnan := hfinite constantCos_spec
    (by
      unfold parsesToNumber
      decide!)
  obtain ⟨h1, h2, h3⟩ := hmax hnan
  exact ⟨response, hreply, hnan, h1, h2, hzero, h3⟩

/-- C3, amended.  For a valid lookup answered by the provider with at least one record, and a
`ParseFloat` that returns `0` with a syntax error and an infinity with a range error: a record
whose longitude or latitude text cannot be parsed does not abort the lookup, the reply is the
JSON response with `hit_count` for all records.  The error is dropped and the coordinate takes
the value returned with it; the distance computed for the record is `calculateDistance` of
these coordinates, not `0`.  It is compared with the running maximum like every other
distance: `tokyo_sta_distance` is at least the record's distance unless that is a NaN, and it
is `0` or the distance of some record. -/
theorem addressHandler_unparseable_coordinate (Cos : F64 → F64)
    (ParseFloat : strconv.ParseFloatFn) (httpGet : String → ProviderResult) (db : DB)
    (r : Request) (locations : List Location)
    (hPF : strconv.ParseFloatSpec ParseFloat) (hget : r.Method = "GET")
    (hvalid : r.postal_code.data.length = 7 ∧
      ∀ c ∈ r.postal_code.data, c ∈ ['0', '1', '2', '3', '4', '5', '6', '7', '8', '9'])
    (hok : httpGet ("https://geoapi.heartrails.com/api/json?method=searchByPostal&postal="
      ++ r.postal_code) = .ok locations)
    (hne : locations ≠ []) :
    ∃ response, (addressHandler Cos ParseFloat httpGet db r).reply = .json response ∧
      response.HitCount = locations.length ∧
      (∀ l ∈ locations, ∃ x y,
        handlerCoordinate ParseFloat l.X x ∧ handlerCoordinate ParseFloat l.Y y ∧
        recordDistance Cos ParseFloat l = calculateDistance Cos x y ∧
        (calculateDistance Cos x y = F64.nan ∨
          F64.ge response.TokyoStaDistance (calculateDistance Cos x y) = true)) ∧
      (response.TokyoStaDistance = 0 ∨
        ∃ l ∈ locations, response.TokyoStaDistance = recordDistance Cos ParseFloat l) := by
  have hm := (validPostalCode_iff r.postal_code).mpr hvalid
  have hlen : locations.length ≠ 0 := fun h => hne (List.length_eq_zero.mp h)
  obtain ⟨_, _, hothers, hsome⟩ := maxDistanceLoop_general Cos ParseFloat locations
    (F64.fin false 0 0) (Or.inr ⟨0, 0, rfl, fun _ => rfl⟩)
  refine ⟨{ PostalCode := r.postal_code, HitCount := locations.length,
            Address := getCommonAddress locations,
            TokyoStaDistance := maxDistanceLoop Cos ParseFloat locations 0 }, ?_, rfl, ?_, ?_⟩
  · rw [addressHandler_match Cos ParseFloat httpGet db r hget hm, hok]
    dsimp only
    rw [if_neg hlen]
  · intro l hl
    refine ⟨(ParseFloat l.X).1, (ParseFloat l.Y).1, handlerCoordinate_value ParseFloat hPF _,
      handlerCoordinate_value ParseFloat hPF _, rfl, ?_⟩
    rw [zero_eq]
    exact hothers l hl
  · show maxDistanceLoop Cos ParseFloat locations 0 = 0 ∨ _
    rw [zero_eq]
    exact hsome

/-- Witness of C3, amended: the lookup of "1000005" whose one record has the latitude text
"abc" is answered with one hit, and the record's distance is `calculateDistance` of its
longitude and the latitude `0`. -/
theorem addressHandler_unparseable_coordinate_witness :
    ∃ response, (addressHandler constantCos strconv.decimalParseFloat withoutLatitudeGet
        workingDB ⟨"GET", "1000005"⟩).reply = .json response ∧
      response.HitCount = 1 ∧
      ∃ x, handlerCoordinate strconv.decimalParseFloat "139.7673068" x ∧
        recordDistance constantCos strconv.decimalParseFloat recordWithoutLatitude
          = calculateDistance constantCos x 0 := by
  obtain ⟨response, hreply, hcount, hrec, _⟩ :=
    addressHandler_unparseable_coordinate constantCos strconv.decimalParseFloat
      withoutLatitudeGet workingDB ⟨"GET", "1000005"⟩ [recordWithoutLatitude]
      decimalParseFloat_spec rfl (by decide) rfl (by decide)
  obtain ⟨x, y, hx, hy, hdist, _⟩ := hrec recordWithoutLatitude (List.mem_singleton.mpr rfl)
  refine ⟨response, hreply, hcount, x, hx, ?_⟩
  have hy0 : y = 0 := by
    have hsyn : (strconv.decimalParseFloat recordWithoutLatitude.Y).2
        = some strconv.NumError.ErrSyntax := by decide!
    unfold handlerCoordinate at hy
    rw [hsyn] at hy
    exact hy
  rw [hdist, hy0]

/-! ## The rounding step of `calculateDistance` -/

/-- The raw distance and the result for a point on the meridian of Tokyo Station, for every
`Cos` that is finite on finite arguments: the longitude difference is zero. -/
theorem meridian_distance (Cos : F64 → F64) (hCos : math.CosSpec Cos) (y raw res : F64)
    (harg : ∃ s m e, math.Pi * (y + TokyoStationY) / 360 = F64.fin s m e)
    (hraw : ∀ s : Bool, math.Pi * EarthRadius / 180 *
      math.Sqrt (F64.fin s 0 0 * F64.fin s 0 0
        + (y - TokyoStationY) * (y - TokyoStationY)) = raw)
    (hres : math.Round (raw * 10) / 10 = res) :
    rawDistance Cos TokyoStationX y = raw ∧ calculateDistance Cos TokyoStationX y = res := by
  have hx : TokyoStationX - TokyoStationX = F64.fin false 0 0 := by decide!
  obtain ⟨sa, ma, ea, ha⟩ := harg
  obtain ⟨s', m', e', hc⟩ := hCos sa ma ea
  have hraw' : rawDistance Cos TokyoStationX y = raw := by
    unfold rawDistance
    simp only []
    rw [ha, hx, hc, mul_zero_fin]
    exact hraw _
  refine ⟨hraw', ?_⟩
  have : calculateDistance Cos TokyoStationX y
      = math.Round (rawDistance Cos TokyoStationX y * 10) / 10 := rfl
  rw [this, hraw', hres]

/-- Counterexample to C5 as stated, for every `Cos` that is finite on finite arguments.  At
`(TokyoStationX, 35.6836591)` the result is the `float64` nearest to `0.3`, which is no
multiple of `1/10` and no multiple of the `float64` nearest to `0.1`.  At the latitude
`6288786741286475 * 2 ^ (-47)`, about `44.6845`, the raw distance `d` is the `float64` nearest
to `1001.15`, the result is the `float64` nearest to `1001.2`, and the two differ by more than
`0.05`.  At `(TokyoStationX, 2 ^ 70)` the raw distance and the result are finite and differ
by `2 ^ 24`. -/
theorem rounding_counterexample :
    math.CosSpec constantCos ∧
    (∀ Cos : F64 → F64, math.CosSpec Cos →
      calculateDistance Cos TokyoStationX (F64.ofRat 356836591 10000000)
        = F64.fin false 5404319552844595 (-54)) ∧
    F64.fin false 5404319552844595 (-54) = F64.ofRat 3 10 ∧
    F64.isMultipleOf 1 10 (F64.fin false 5404319552844595 (-54)) = false ∧
    F64.ofRat 1 10 = F64.fin false 7205759403792794 (-56) ∧
    F64.isMultipleOf 7205759403792794 (2 ^ 56) (F64.fin false 5404319552844595 (-54)) = false ∧
    (∀ Cos : F64 → F64, math.CosSpec Cos →
      rawDistance Cos TokyoStationX (F64.fin false 6288786741286475 (-47))
          = F64.ofRat 100115 100 ∧
        calculateDistance Cos TokyoStationX (F64.fin false 6288786741286475 (-47))
          = F64.ofRat 10012 10) ∧
    F64.fartherThan 5 100 (F64.ofRat 10012 10) (F64.ofRat 100115 100) = true ∧
    (∀ Cos : F64 → F64, math.CosSpec Cos →
      rawDistance Cos TokyoStationX (F64.ofRat (2 ^ 70) 1)
          = F64.fin false 7824647346905068 24 ∧
        calculateDistance Cos TokyoStationX (F64.ofRat (2 ^ 70) 1)
          = F64.fin false 7824647346905069 24) ∧
    F64.fartherThan 5 100 (F64.fin false 7824647346905069 24)
      (F64.fin false 7824647346905068 24) = true := by
  refine ⟨constantCos_spec, ?_, by decide!, by decide!, by decide!, by decide!, ?_,
    by decide!, ?_, by decide!⟩
  · intro Cos hCos
    exact (meridian_distance Cos hCos (F64.ofRat 356836591 10000000)
      (F64.fin false 5408396246175295 (-54)) (F64.fin false 5404319552844595 (-54))
      ⟨false, 5609447513661510, -53, by decide!⟩ (fun s => by cases s <;> decide!)
      (by decide!)).2
  · intro Cos hCos
    exact meridian_distance Cos hCos (F64.fin false 6288786741286475 (-47))
      (F64.ofRat 100115 100) (F64.ofRat 10012 10)
      ⟨false, 6316938750183317, -53, by decide!⟩ (fun s => by cases s <;> decide!)
      (by decide!)
  · intro Cos hCos
    exact meridian_distance Cos hCos (F64.ofRat (2 ^ 70) 1)
      (F64.fin false 7824647346905068 24) (F64.fin false 7824647346905069 24)
      ⟨false, 5030569068109113, 11, by decide!⟩ (fun s => by cases s <;> decide!)
      (by decide!)

/-! ## Rounding: the result is a canonical `float64`, and integers are exact -/

/-- A bound `num * 2 ^ a ≤ den * 2 ^ b` moved to exponents of no smaller difference. -/
theorem scaled_le (num den a b c d : Nat) (h : num * 2 ^ a ≤ den * 2 ^ b)
    (hexp : b + c ≤ a + d) : num * 2 ^ c ≤ den * 2 ^ d := by
  have hpos : 0 < 2 ^ a := Nat.pow_pos (by norm_num)
  apply Nat.le_of_mul_le_mul_right _ hpos
  calc num * 2 ^ c * 2 ^ a = num * 2 ^ a * 2 ^ c := by ring
    _ ≤ den * 2 ^ b * 2 ^ c := Nat.mul_le_mul_right _ h
    _ = den * 2 ^ (b + c) := by rw [Nat.mul_assoc, ← Nat.pow_add]
    _ ≤ den * 2 ^ (a + d) := Nat.mul_le_mul_left _ (pow_two_le _ _ hexp)
    _ = den * 2 ^ d * 2 ^ a := by
        rw [Nat.pow_add]
        ring

/-- A strict bound `num * 2 ^ a < den * 2 ^ b` moved to exponents of no smaller
difference. -/
theorem scaled_lt (num den a b c d : Nat) (h : num * 2 ^ a < den * 2 ^ b)
    (hexp : b + c ≤ a + d) : num * 2 ^ c < den * 2 ^ d := by
  have hpos : 0 < 2 ^ a := Nat.pow_pos (by norm_num)
  have hposc : 0 < 2 ^ c := Nat.pow_pos (by norm_num)
  apply Nat.lt_of_mul_lt_mul_right (a := 2 ^ a)
  calc num * 2 ^ c * 2 ^ a = num * 2 ^ a * 2 ^ c := by ring
    _ < den * 2 ^ b * 2 ^ c := Nat.mul_lt_mul_of_pos_right h hposc
    _ = den * 2 ^ (b + c) := by rw [Nat.mul_assoc, ← Nat.pow_add]
    _ ≤ den * 2 ^ (a + d) := Nat.mul_le_mul_left _ (pow_two_le _ _ hexp)
    _ = den * 2 ^ d * 2 ^ a := by
        rw [Nat.pow_add]
        ring

/-- An equation `num * 2 ^ a = den * 2 ^ b` moved to exponents of the same difference. -/
theorem scaled_eq (num den a b c d : Nat) (h : num * 2 ^ a = den * 2 ^ b)
    (hexp : b + c = a + d) : num * 2 ^ c = den * 2 ^ d :=
  Nat.le_antisymm (scaled_le num den a b c d (Nat.le_of_eq h) (Nat.le_of_eq hexp))
    (scaled_le den num b a d c (Nat.le_of_eq h.symm) (Nat.le_of_eq hexp.symm))

theorem bitLen_pos (n : Nat) (h : 0 < n) : 1 ≤ F64.bitLen n := by
  by_contra h0
  have h00 : F64.bitLen n = 0 := by omega
  have hlt := lt_pow_bitLen n
  rw [h00] at hlt
  simp at hlt
  omega

/-- The place `lastPlace` keeps is at most 52 places below the leading digit: the quotient
scaled to that place is at most `2 ^ 53`. -/
theorem lastPlace_quotient_le (num den : Nat) (hden : 0 < den) :
    num * 2 ^ (-(F64.lastPlace num den)).toNat
      ≤ den * 2 ^ (F64.lastPlace num den).toNat * 2 ^ 53 := by
  have hA := lt_pow_bitLen num
  have hB := pow_bitLen_le den (by omega)
  have hB1 := bitLen_pos den hden
  rw [Nat.mul_assoc, ← Nat.pow_add]
  by_cases hlt : F64.ratLtPow2 num den ((F64.bitLen num : Int) - (F64.bitLen den : Int)) = true
  · have h1 : num * 2 ^ (-((F64.bitLen num : Int) - (F64.bitLen den : Int))).toNat
        < den * 2 ^ ((F64.bitLen num : Int) - (F64.bitLen den : Int)).toNat := by
      simpa [F64.ratLtPow2] using hlt
    have hE : (F64.bitLen num : Int) - (F64.bitLen den : Int) - 53
        ≤ F64.lastPlace num den := by
      unfold F64.lastPlace
      simp only []
      rw [if_pos hlt]
      omega
    exact scaled_le _ _ _ _ _ _ (Nat.le_of_lt h1) (by omega)
  · have h1 : num * 2 ^ (F64.bitLen den - 1) ≤ den * 2 ^ F64.bitLen num := by
      calc num * 2 ^ (F64.bitLen den - 1)
          ≤ 2 ^ F64.bitLen num * 2 ^ (F64.bitLen den - 1) :=
            Nat.mul_le_mul_right _ (Nat.le_of_lt hA)
        _ = 2 ^ (F64.bitLen den - 1) * 2 ^ F64.bitLen num := Nat.mul_comm _ _
        _ ≤ den * 2 ^ F64.bitLen num := Nat.mul_le_mul_right _ hB
    have hE : (F64.bitLen num : Int) - (F64.bitLen den : Int) - 52
        ≤ F64.lastPlace num den := by
      unfold F64.lastPlace
      simp only []
      rw [if_neg hlt]
      omega
    exact scaled_le _ _ _ _ _ _ h1 (by omega)

theorem roundQuotient_lastPlace_le (num den : Nat) (hden : 0 < den) :
    F64.roundQuotient (num * 2 ^ (-(F64.lastPlace num den)).toNat)
      (den * 2 ^ (F64.lastPlace num den).toNat) ≤ 2 ^ 53 :=
  roundQuotient_le _ _ _ (Nat.mul_pos hden (Nat.pow_pos (by norm_num)))
    (lastPlace_quotient_le num den hden)

/-- A finite result of `pack` has a significand below `2 ^ 53` and a magnitude below
`2 ^ 1024`. -/
theorem pack_canonical (neg : Bool) (q : Nat) (E : Int) (hq : q ≤ 2 ^ 53)
    (s : Bool) (m : Nat) (e : Int) (h : F64.pack neg q E = F64.fin s m e) :
    s = neg ∧ m < 2 ^ 53 ∧ m * 2 ^ e.toNat < 2 ^ 1024 * 2 ^ (-e).toNat := by
  have hsplit : (2 : Nat) ^ 2098 = 2 ^ 1024 * 2 ^ 1074 := by rw [← Nat.pow_add]
  unfold F64.pack at h
  split_ifs at h with h1 h2 h3
  · obtain ⟨rfl, rfl, rfl⟩ := F64.fin.inj h
    refine ⟨rfl, Nat.pow_pos (by norm_num), ?_⟩
    rw [Nat.zero_mul]
    exact Nat.mul_pos (Nat.pow_pos (by norm_num)) (Nat.pow_pos (by norm_num))
  · obtain ⟨rfl, rfl, rfl⟩ := F64.fin.inj h
    refine ⟨rfl, Nat.pow_lt_pow_right (by norm_num) (by norm_num), ?_⟩
    have h2' : 2 ^ 52 * 2 ^ ((E + 1074).toNat + 1) < 2 ^ 1024 * 2 ^ 1074 := by
      have e1 : 2 ^ 52 * 2 ^ ((E + 1074).toNat + 1) = q * 2 ^ (E + 1074).toNat := by
        rw [h3]
        ring
      rw [← hsplit, e1]
      exact Nat.lt_of_not_ge h2
    exact scaled_lt _ _ _ _ _ _ h2' (by omega)
  · obtain ⟨rfl, rfl, rfl⟩ := F64.fin.inj h
    refine ⟨rfl, Nat.lt_of_le_of_ne hq h3, ?_⟩
    have h2' : q * 2 ^ (E + 1074).toNat < 2 ^ 1024 * 2 ^ 1074 := by
      rw [← hsplit]
      exact Nat.lt_of_not_ge h2
    exact scaled_lt _ _ _ _ _ _ h2' (by omega)

theorem roundRat_canonical (neg : Bool) (num den : Nat) (hden : 0 < den)
    (s : Bool) (m : Nat) (e : Int) (h : F64.roundRat neg num den = F64.fin s m e) :
    s = neg ∧ m < 2 ^ 53 ∧ m * 2 ^ e.toNat < 2 ^ 1024 * 2 ^ (-e).toNat :=
  pack_canonical neg _ _ (roundQuotient_lastPlace_le num den hden) s m e h

/-- A finite product has a significand below `2 ^ 53` and a magnitude below `2 ^ 1024`. -/
theorem mul_canonical (x y : F64) (s : Bool) (m : Nat) (e : Int)
    (h : x * y = F64.fin s m e) :
    m < 2 ^ 53 ∧ m * 2 ^ e.toNat < 2 ^ 1024 * 2 ^ (-e).toNat := by
  change F64.mul x y = F64.fin s m e at h
  cases x with
  | nan => simp [F64.mul] at h
  | inf a =>
    cases y with
    | nan => simp [F64.mul] at h
    | inf b => simp [F64.mul] at h
    | fin s₂ m₂ e₂ =>
      simp only [F64.mul] at h
      split_ifs at h
  | fin s₁ m₁ e₁ =>
    cases y with
    | nan => simp [F64.mul] at h
    | inf b =>
      simp only [F64.mul] at h
      split_ifs at h
    | fin s₂ m₂ e₂ =>
      simp only [F64.mul, F64.roundDyadic] at h
      exact (roundRat_canonical _ _ _ (Nat.pow_pos (by norm_num)) s m e h).2

theorem bitLen_one : F64.bitLen 1 = 1 := rfl

theorem lastPlace_int_le (m₀ k : Nat) (h53 : m₀ < 2 ^ 53) :
    F64.lastPlace (m₀ * 2 ^ k) 1 ≤ (k : Int) := by
  have hb : F64.bitLen (m₀ * 2 ^ k) ≤ 53 + k := by
    by_cases hn : m₀ * 2 ^ k = 0
    · rw [hn]
      have : F64.bitLen 0 = 0 := bitLenAux_zero 0
      omega
    · have h1 := pow_bitLen_le _ hn
      have h2 : m₀ * 2 ^ k < 2 ^ (53 + k) := by
        rw [Nat.pow_add]
        exact Nat.mul_lt_mul_of_pos_right h53 (Nat.pow_pos (by norm_num))
      have h3 := (Nat.pow_lt_pow_iff_right (by norm_num : 1 < 2)).mp (Nat.lt_of_le_of_lt h1 h2)
      omega
  unfold F64.lastPlace
  simp only []
  rw [bitLen_one]
  split_ifs <;> omega

theorem roundQuotient_exact (q d : Nat) (hd : 0 < d) : F64.roundQuotient (q * d) d = q := by
  unfold F64.roundQuotient
  simp only []
  rw [Nat.mul_mod_left, Nat.mul_div_cancel _ hd]
  rw [if_neg]
  intro h
  rcases h with h | ⟨h, _⟩ <;> omega

/-- An integer `m₀ * 2 ^ k` with `m₀ < 2 ^ 53` and below `2 ^ 1024` is a `float64`:
rounding it changes nothing. -/
theorem roundRat_int_exact (s : Bool) (m₀ k : Nat) (h53 : m₀ < 2 ^ 53)
    (hmag : m₀ * 2 ^ k < 2 ^ 1024) :
    F64.hasValue s (m₀ * 2 ^ k) (F64.roundRat s (m₀ * 2 ^ k) 1) := by
  have hE1 := lastPlace_ge (m₀ * 2 ^ k) 1
  have hE2 := lastPlace_int_le m₀ k h53
  unfold F64.roundRat
  simp only []
  generalize F64.lastPlace (m₀ * 2 ^ k) 1 = E at hE1 hE2 ⊢
  have hq : m₀ * 2 ^ k * 2 ^ (-E).toNat
      = m₀ * 2 ^ ((k : Int) - E).toNat * (1 * 2 ^ E.toNat) := by
    rw [Nat.one_mul, Nat.mul_assoc, Nat.mul_assoc, ← Nat.pow_add, ← Nat.pow_add]
    congr 2
    omega
  have hval : m₀ * 2 ^ ((k : Int) - E).toNat * 2 ^ E.toNat
      = m₀ * 2 ^ k * 2 ^ (-E).toNat := by
    rw [hq, Nat.one_mul]
  rw [hq, roundQuotient_exact _ _ (Nat.mul_pos (by norm_num) (Nat.pow_pos (by norm_num)))]
  have hscaled : m₀ * 2 ^ ((k : Int) - E).toNat * 2 ^ (E + 1074).toNat
      = m₀ * 2 ^ k * 2 ^ 1074 := by
    rw [Nat.mul_assoc, Nat.mul_assoc, ← Nat.pow_add, ← Nat.pow_add]
    congr 2
    omega
  unfold F64.pack
  split_ifs with h1 h2 h3
  · have hm0 : m₀ = 0 := by
      rcases Nat.mul_eq_zero.mp h1 with h | h
      · exact h
      · exact absurd h (Nat.pos_iff_ne_zero.mp (Nat.pow_pos (by norm_num)))
    subst hm0
    simp [F64.hasValue]
  · exfalso
    rw [hscaled] at h2
    have hlt : m₀ * 2 ^ k * 2 ^ 1074 < 2 ^ 1024 * 2 ^ 1074 :=
      Nat.mul_lt_mul_of_pos_right hmag (Nat.pow_pos (by norm_num))
    rw [← Nat.pow_add] at hlt
    exact absurd h2 (Nat.not_le_of_lt hlt)
  · refine ⟨rfl, ?_⟩
    have h3' : m₀ * 2 ^ ((k : Int) - E).toNat = 2 ^ 52 * 2 ^ 1 := by
      rw [h3, ← Nat.pow_add]
    have := scaled_eq m₀ (2 ^ 52) _ _ (k + (-(E + 1)).toNat) (E + 1).toNat h3' (by omega)
    rw [Nat.mul_assoc m₀, ← Nat.pow_add 2 k]
    exact this.symm
  · exact ⟨rfl, hval⟩

/-- The value `math.Round` gives for a canonical finite `float64`: exactly an integer `n`
with the sign of the argument, where `n - 1/2 ≤ |t| < n + 1/2`. -/
theorem Round_nearest (s : Bool) (m : Nat) (e : Int) (h53 : m < 2 ^ 53)
    (hmag : m * 2 ^ e.toNat < 2 ^ 1024 * 2 ^ (-e).toNat) :
    ∃ n, F64.nearestAwayFromZero n (F64.fin s m e) ∧
      F64.hasValue s n (math.Round (F64.fin s m e)) := by
  have hden : 0 < 2 ^ (-e).toNat := Nat.pow_pos (by norm_num)
  refine ⟨(2 * (m * 2 ^ e.toNat) + 2 ^ (-e).toNat) / (2 * 2 ^ (-e).toNat), ⟨?_, ?_⟩, ?_⟩
  · rw [Nat.mul_comm 2 (_ / _), Nat.mul_assoc]
    exact Nat.div_mul_le_self _ _
  · have h1 := Nat.div_add_mod (2 * (m * 2 ^ e.toNat) + 2 ^ (-e).toNat) (2 * 2 ^ (-e).toNat)
    have h2 := Nat.mod_lt (2 * (m * 2 ^ e.toNat) + 2 ^ (-e).toNat)
      (Nat.mul_pos (by norm_num : 0 < 2) hden)
    calc 2 * (m * 2 ^ e.toNat) + 2 ^ (-e).toNat
        = 2 * 2 ^ (-e).toNat
            * ((2 * (m * 2 ^ e.toNat) + 2 ^ (-e).toNat) / (2 * 2 ^ (-e).toNat))
          + (2 * (m * 2 ^ e.toNat) + 2 ^ (-e).toNat) % (2 * 2 ^ (-e).toNat) := h1.symm
      _ < 2 * 2 ^ (-e).toNat
            * ((2 * (m * 2 ^ e.toNat) + 2 ^ (-e).toNat) / (2 * 2 ^ (-e).toNat))
          + 2 * 2 ^ (-e).toNat := Nat.add_lt_add_left h2 _
      _ = 2 * ((2 * (m * 2 ^ e.toNat) + 2 ^ (-e).toNat) / (2 * 2 ^ (-e).toNat) + 1)
            * 2 ^ (-e).toNat := by ring
  · show F64.hasValue s _ (F64.roundRat s _ 1)
    by_cases he : 0 ≤ e
    · have hz : (-e).toNat = 0 := by omega
      rw [hz] at hmag ⊢
      rw [Nat.pow_zero, Nat.mul_one] at hmag
      have hn : (2 * (m * 2 ^ e.toNat) + 2 ^ 0) / (2 * 2 ^ 0) = m * 2 ^ e.toNat := by
        rw [Nat.pow_zero]
        omega
      rw [hn]
      exact roundRat_int_exact s m e.toNat h53 hmag
    · have hz : e.toNat = 0 := by omega
      rw [hz, Nat.pow_zero, Nat.mul_one]
      have hn : (2 * m + 2 ^ (-e).toNat) / (2 * 2 ^ (-e).toNat) ≤ m := by
        apply Nat.le_of_lt_succ
        rw [Nat.div_lt_iff_lt_mul (Nat.mul_pos (by norm_num : 0 < 2) hden)]
        calc 2 * m + 2 ^ (-e).toNat
            < 2 * m * 2 ^ (-e).toNat + 2 * 2 ^ (-e).toNat := by
              have : 2 * m ≤ 2 * m * 2 ^ (-e).toNat := Nat.le_mul_of_pos_right _ hden
              omega
          _ = (m + 1) * (2 * 2 ^ (-e).toNat) := by ring
      have hlt : (2 * m + 2 ^ (-e).toNat) / (2 * 2 ^ (-e).toNat) < 2 ^ 53 :=
        Nat.lt_of_le_of_lt hn h53
      have := roundRat_int_exact s _ 0 hlt
        (by
          rw [Nat.pow_zero, Nat.mul_one]
          exact Nat.lt_trans hlt (Nat.pow_lt_pow_right (by norm_num) (by norm_num)))
      rw [Nat.pow_zero, Nat.mul_one] at this
      exact this

/-! ## Rounding depends on the quotient alone -/

/-- The leading binary place `ex` of `num / den`, from which `lastPlace` counts:
`2 ^ ex ≤ num / den < 2 ^ (ex + 1)`. -/
theorem lastPlace_leading (num den : Nat) (hnum : 0 < num) (hden : 0 < den) :
    ∃ ex : Int, F64.lastPlace num den = max (ex - 52) (-1074) ∧
      den * 2 ^ ex.toNat ≤ num * 2 ^ (-ex).toNat ∧
      num * 2 ^ (-(ex + 1)).toNat < den * 2 ^ (ex + 1).toNat := by
  have hA := lt_pow_bitLen num
  have hA' := pow_bitLen_le num (by omega)
  have hB := lt_pow_bitLen den
  have hB' := pow_bitLen_le den (by omega)
  have hA1 := bitLen_pos num hnum
  have hB1 := bitLen_pos den hden
  by_cases hlt : F64.ratLtPow2 num den ((F64.bitLen num : Int) - (F64.bitLen den : Int)) = true
  · refine ⟨(F64.bitLen num : Int) - (F64.bitLen den : Int) - 1, ?_, ?_, ?_⟩
    · unfold F64.lastPlace
      simp only []
      rw [if_pos hlt]
    · have h1 : den * 2 ^ (F64.bitLen num - 1) ≤ num * 2 ^ F64.bitLen den := by
        calc den * 2 ^ (F64.bitLen num - 1)
            ≤ 2 ^ F64.bitLen den * 2 ^ (F64.bitLen num - 1) :=
              Nat.mul_le_mul_right _ (Nat.le_of_lt hB)
          _ = 2 ^ (F64.bitLen num - 1) * 2 ^ F64.bitLen den := Nat.mul_comm _ _
          _ ≤ num * 2 ^ F64.bitLen den := Nat.mul_le_mul_right _ hA'
      exact scaled_le den num _ _ _ _ h1 (by omega)
    · have h1 : num * 2 ^ (-((F64.bitLen num : Int) - (F64.bitLen den : Int))).toNat
          < den * 2 ^ ((F64.bitLen num : Int) - (F64.bitLen den : Int)).toNat := by
        simpa [F64.ratLtPow2] using hlt
      exact scaled_lt num den _ _ _ _ h1 (by omega)
  · refine ⟨(F64.bitLen num : Int) - (F64.bitLen den : Int), ?_, ?_, ?_⟩
    · unfold F64.lastPlace
      simp only []
      rw [if_neg hlt]
    · simpa [F64.ratLtPow2] using hlt
    · have h1 : num * 2 ^ (F64.bitLen den - 1) < den * 2 ^ F64.bitLen num := by
        calc num * 2 ^ (F64.bitLen den - 1)
            < 2 ^ F64.bitLen num * 2 ^ (F64.bitLen den - 1) :=
              Nat.mul_lt_mul_of_pos_right hA (Nat.pow_pos (by norm_num))
          _ = 2 ^ (F64.bitLen den - 1) * 2 ^ F64.bitLen num := Nat.mul_comm _ _
          _ ≤ den * 2 ^ F64.bitLen num := Nat.mul_le_mul_right _ hB'
      exact scaled_lt num den _ _ _ _ h1 (by omega)

theorem leading_unique (num den : Nat) (e₁ e₂ : Int)
    (hu : num * 2 ^ (-(e₁ + 1)).toNat < den * 2 ^ (e₁ + 1).toNat)
    (hl : den * 2 ^ e₂.toNat ≤ num * 2 ^ (-e₂).toNat) : e₂ ≤ e₁ := by
  by_contra h
  have hlt := scaled_lt num den _ _ (-e₂).toNat e₂.toNat hu (by omega)
  exact absurd hl (Nat.not_le_of_lt hlt)

theorem lastPlace_scale (num den c : Nat) (hnum : 0 < num) (hden : 0 < den) (hc : 0 < c) :
    F64.lastPlace (num * c) (den * c) = F64.lastPlace num den := by
  obtain ⟨e₁, h1, hl1, hu1⟩ := lastPlace_leading num den hnum hden
  obtain ⟨e₂, h2, hl2, hu2⟩ :=
    lastPlace_leading (num * c) (den * c) (Nat.mul_pos hnum hc) (Nat.mul_pos hden hc)
  have hl2' : den * 2 ^ e₂.toNat ≤ num * 2 ^ (-e₂).toNat := by
    apply Nat.le_of_mul_le_mul_right _ hc
    rw [Nat.mul_right_comm den, Nat.mul_right_comm num]
    exact hl2
  have hu2' : num * 2 ^ (-(e₂ + 1)).toNat < den * 2 ^ (e₂ + 1).toNat := by
    apply Nat.lt_of_mul_lt_mul_right (a := c)
    rw [Nat.mul_right_comm den, Nat.mul_right_comm num]
    exact hu2
  have h12 := leading_unique num den e₁ e₂ hu1 hl2'
  have h21 := leading_unique num den e₂ e₁ hu2' hl1
  have heq : e₁ = e₂ := by omega
  rw [h1, h2, heq]

theorem roundQuotient_scale (n d c : Nat) (hc : 0 < c) :
    F64.roundQuotient (n * c) (d * c) = F64.roundQuotient n d := by
  unfold F64.roundQuotient
  simp only []
  rw [Nat.mul_div_mul_right n d hc, Nat.mul_mod_mul_right]
  have e1 : 2 * (n % d * c) = 2 * (n % d) * c := by ring
  have hiff : (2 * (n % d * c) > d * c ∨ 2 * (n % d * c) = d * c ∧ n / d % 2 = 1)
      ↔ (2 * (n % d) > d ∨ 2 * (n % d) = d ∧ n / d % 2 = 1) := by
    rw [e1]
    constructor
    · rintro (h | ⟨h, h'⟩)
      · exact Or.inl (Nat.lt_of_mul_lt_mul_right h)
      · exact Or.inr ⟨Nat.eq_of_mul_eq_mul_right hc h, h'⟩
    · rintro (h | ⟨h, h'⟩)
      · exact Or.inl (Nat.mul_lt_mul_of_pos_right h hc)
      · exact Or.inr ⟨by rw [h], h'⟩
  by_cases hcond : 2 * (n % d) > d ∨ 2 * (n % d) = d ∧ n / d % 2 = 1
  · rw [if_pos hcond, if_pos (hiff.mpr hcond)]
  · rw [if_neg hcond, if_neg (fun h => hcond (hiff.mp h))]

/-- Rounding `num / den` does not change when both are multiplied by `c`. -/
theorem roundRat_scale (s : Bool) (num den c : Nat) (hden : 0 < den) (hc : 0 < c) :
    F64.roundRat s (num * c) (den * c) = F64.roundRat s num den := by
  by_cases hnum : num = 0
  · subst hnum
    rw [Nat.zero_mul, roundRat_zero, roundRat_zero]
  · unfold F64.roundRat
    simp only []
    rw [lastPlace_scale num den c (by omega) hden hc, Nat.mul_right_comm num c,
      Nat.mul_right_comm den c, roundQuotient_scale _ _ _ hc]

/-- Rounding depends on the quotient alone: equal fractions round to the same `float64`. -/
theorem roundRat_ratio (s : Bool) (a b c d : Nat) (hb : 0 < b) (hd : 0 < d)
    (h : a * d = c * b) : F64.roundRat s a b = F64.roundRat s c d :=
  calc F64.roundRat s a b = F64.roundRat s (a * d) (b * d) := (roundRat_scale s a b d hb hd).symm
    _ = F64.roundRat s (c * b) (d * b) := by rw [h, Nat.mul_comm b d]
    _ = F64.roundRat s c d := roundRat_scale s c d b hd hb

/-- The quotient by the constant `10` of a `float64` whose value is the integer `n`: the
`float64` nearest to `n / 10`. -/
theorem div_ten_of_hasValue (s : Bool) (n : Nat) (v : F64) (h : F64.hasValue s n v) :
    v / 10 = F64.roundRat s n 10 := by
  rw [ten_eq]
  cases v with
  | nan => exact h.elim
  | inf a => exact h.elim
  | fin s' m e =>
    obtain ⟨rfl, hval⟩ := h
    show F64.div _ _ = _
    simp only [F64.div]
    rw [if_neg (by norm_num), Bool.xor_false]
    have hle1 : min e (-49) ≤ e := min_le_left _ _
    have hle2 : min e (-49) ≤ -49 := min_le_right _ _
    generalize min e (-49) = e₀ at hle1 hle2 ⊢
    have hM : (5629499534213120 : Nat) = 10 * 2 ^ 49 := by norm_num
    have ha : m * 2 ^ (e - e₀).toNat = n * 2 ^ (-e₀).toNat :=
      scaled_eq m n _ _ _ _ hval (by omega)
    have hb : 5629499534213120 * 2 ^ (-49 - e₀).toNat = 10 * 2 ^ (-e₀).toNat := by
      rw [hM, Nat.mul_assoc, ← Nat.pow_add]
      congr 2
      omega
    apply roundRat_ratio _ _ _ _ _ (Nat.mul_pos (by norm_num) (Nat.pow_pos (by norm_num)))
      (by norm_num)
    rw [ha, hb]
    ring

/-- C5, amended.  For every longitude `x` and latitude `y`, `calculateDistance` returns
`math.Round (d * 10) / 10` in `float64` arithmetic, `d = rawDistance x y` the distance before
the rounding step.  A NaN or an infinity of `d * 10` is passed on.  When `d * 10` is finite,
`math.Round` gives exactly an integer `n` with the sign of `d * 10` and
`n - 1/2 ≤ |d * 10| < n + 1/2`, the nearest integer with a half rounded away from zero, and
the result is the `float64` nearest to `n / 10`.  The step maps a raw distance of `12.34` to
`12.3` and one of `12.35` to `12.4`. -/
theorem calculateDistance_rounding (Cos : F64 → F64) (x y : F64) :
    calculateDistance Cos x y = math.Round (rawDistance Cos x y * 10) / 10 ∧
    (rawDistance Cos x y * 10 = F64.nan → calculateDistance Cos x y = F64.nan) ∧
    (∀ s, rawDistance Cos x y * 10 = F64.inf s → calculateDistance Cos x y = F64.inf s) ∧
    (∀ s m e, rawDistance Cos x y * 10 = F64.fin s m e →
      ∃ n, F64.nearestAwayFromZero n (F64.fin s m e) ∧
        F64.hasValue s n (math.Round (F64.fin s m e)) ∧
        calculateDistance Cos x y = F64.roundRat s n 10) ∧
    math.Round (F64.ofRat 1234 100 * 10) / 10 = F64.ofRat 123 10 ∧
    math.Round (F64.ofRat 1235 100 * 10) / 10 = F64.ofRat 124 10 := by
  have hstep : calculateDistance Cos x y = math.Round (rawDistance Cos x y * 10) / 10 := rfl
  refine ⟨hstep, ?_, ?_, ?_, by decide!, by decide!⟩
  · intro h
    rw [hstep, h]
    rfl
  · intro s h
    rw [hstep, h, ten_eq]
    show F64.div (F64.inf s) _ = _
    simp [F64.div]
  · intro s m e h
    obtain ⟨h53, hmag⟩ := mul_canonical _ _ s m e h
    obtain ⟨n, hnear, hval⟩ := Round_nearest s m e h53 hmag
    refine ⟨n, hnear, hval, ?_⟩
    rw [hstep, h]
    exact div_ten_of_hasValue s n _ hval

/-- The rounding at `(TokyoStationX, 35.6836591)`: `d * 10` is a little above `3.0022`, the
nearest integer is `3`, and the result is the `float64` nearest to `3 / 10`. -/
theorem calculateDistance_rounding_witness :
    rawDistance constantCos TokyoStationX (F64.ofRat 356836591 10000000) * 10
      = F64.fin false 6760495307719119 (-51) ∧
    ∃ n, F64.nearestAwayFromZero n (F64.fin false 6760495307719119 (-51)) ∧
      F64.hasValue false n (math.Round (F64.fin false 6760495307719119 (-51))) ∧
      calculateDistance constantCos TokyoStationX (F64.ofRat 356836591 10000000)
        = F64.roundRat false n 10 :=
  ⟨by decide!,
    (calculateDistance_rounding constantCos TokyoStationX
      (F64.ofRat 356836591 10000000)).2.2.2.1 false 6760495307719119 (-51) (by decide!)⟩

end PostalApi
